import Mathlib

/-!
Verification development for the KITTI 3D-box evaluation core
(`hota_metrics/datasets/kitti_3d_box.py`, class `Kitti3DBox`).

The Python source is shallowly embedded over `ℚ`: every exact float value a
run of the program manipulates is a rational number, real arithmetic
(`+ - * /`, comparisons, `min`/`max`, `abs`) is embedded as the corresponding
exact `ℚ` operation.  Transcendental library calls are handled as follows:

* `np.cos(yaw)`/`np.sin(yaw)` (used only once, in `__roty`): a box's yaw
  angle enters the computation only through the pair `(cos yaw, sin yaw)`,
  so a detection carries that pair directly (fields `ryc`, `rys`); theorems
  that need it assume `ryc ^ 2 + rys ^ 2 = 1`.
* `np.sqrt` (used only in `__box3d_vol`): taken as an explicit function
  parameter `sqrt : ℚ → ℚ`; theorems assume its defining property at the
  (nonnegative) arguments where it is applied.
* `math.atan2 / % (math.pi/2) / math.cos` inside `__min_bounding_rect`:
  an angle is represented by a direction vector; see `canonAngle` below.

External collaborators (scipy's `linear_sum_assignment` and `ConvexHull`,
and the base-class helpers `_calculate_box_ious` / `_check_unique_ids`
which are not part of this file's source) are modelled at their interface,
as documented at each definition.
-/

/-! ## Ground data model -/

/-- One detection record, i.e. one row of `raw_data['dets']` (the 11 columns
`time_data[:, 6:17]` of a KITTI line).  Columns 0-3 are the 2D box
`x0,y0,x1,y1`; column 4 is the 3D height `h`, 5 the width `w`, 6 the length
`l`; columns 7-9 the 3D center `x,y,z`; column 10 the yaw `ry`, embedded as
the pair `(ryc, rys) = (cos ry, sin ry)` since the source only ever uses the
yaw through `__roty`. -/
structure Det where
  x0 : ℚ
  y0 : ℚ
  x1 : ℚ
  y1 : ℚ
  h : ℚ
  w : ℚ
  l : ℚ
  cx : ℚ
  cy : ℚ
  cz : ℚ
  ryc : ℚ
  rys : ℚ
  deriving Repr, DecidableEq, Inhabited

/-- The ground-truth side of one raw frame (`raw_data` at one timestep). -/
structure GtFrame where
  ids : List ℕ
  classes : List ℕ
  occlusion : List ℤ
  truncation : List ℤ
  dets : List Det
  crowd : List Det
  deriving Repr, DecidableEq

/-- The tracker side of one raw frame. -/
structure TrFrame where
  ids : List ℕ
  classes : List ℕ
  confidences : List ℚ
  dets : List Det
  deriving Repr, DecidableEq

/-- All per-frame inputs consumed by the body of the preprocessing loop of
`get_preprocessed_seq_data`, after the evaluated class has been resolved:
class id `clsId`, distractor class ids, the raw frame data, the two
similarity matrices `raw_data['similarity_scores'][t]` (3D GIoU-based and
2D IoU-based), and the output of the external bipartite assignment solver
`scipy.optimize.linear_sum_assignment(-matching_scores)` as a list of
(row, column) pairs. -/
structure PreArgs where
  clsId : ℕ
  distractors : List ℕ
  gt : GtFrame
  tr : TrFrame
  sim3d : List (List ℚ)
  sim2d : List (List ℚ)
  matching : List (ℕ × ℕ)

/-- Domain constant `self.max_occlusion = 2`. -/
def max_occlusion : ℤ := 2

/-- Domain constant `self.max_truncation = 0`. -/
def max_truncation : ℤ := 0

/-- Domain constant `self.min_height = 25`. -/
def min_height : ℚ := 25

/-- `klass.[i]` selection of a list by a boolean mask (numpy boolean-mask
indexing `arr[mask]`). -/
def maskFilter (mask : List Bool) (l : List α) : List α :=
  ((mask.zip l).filter (fun p => p.1)).map (fun p => p.2)

/-- Entry access `M[r][c]` in a list-of-lists matrix, defaulting to `0`
out of range (the source only accesses in-range entries). -/
def entry (m : List (List ℚ)) (r c : ℕ) : ℚ :=
  ((m.getD r []).getD c 0)

/-- Modelled from the spec (§6): the base-class utility
`self._calculate_box_ious(boxes1, boxes2, box_format='x0y0x1y1', do_ioa=True)`
is not part of this source file; per the spec it is the axis-aligned 2D
overlap primitive returning intersection-over-first-box-area on
`[x0,y0,x1,y1]` boxes. -/
def ioa (a b : Det) : ℚ :=
  let ix := max 0 (min a.x1 b.x1 - max a.x0 b.x0)
  let iy := max 0 (min a.y1 b.y1 - max a.y0 b.y0)
  ix * iy / ((a.x1 - a.x0) * (a.y1 - a.y0))

/-- Modelled from the spec (§6): the base-class utility
`self._calculate_box_ious(boxes1, boxes2, box_format='x0y0x1y1')` (IoU
variant, used by `_calculate_similarities` for the 2D matrix). -/
def iou2d (a b : Det) : ℚ :=
  let ix := max 0 (min a.x1 b.x1 - max a.x0 b.x0)
  let iy := max 0 (min a.y1 b.y1 - max a.y0 b.y0)
  let inter := ix * iy
  inter / ((a.x1 - a.x0) * (a.y1 - a.y0) + (b.x1 - b.x0) * (b.y1 - b.y0) - inter)

/-! ## Per-frame preprocessing (`get_preprocessed_seq_data`, loop body)

Each intermediate numpy array of the loop body becomes a definition taking
the bundled arguments, in source order. -/

/-- `gt_class_mask`: ground-truth rows whose class is the evaluated class or
one of its distractor classes. -/
def gtClassMask (a : PreArgs) : List Bool :=
  a.gt.classes.map (fun k => decide (k = a.clsId ∨ k ∈ a.distractors))

/-- `tracker_class_mask`: tracker rows of the evaluated class only. -/
def trClassMask (a : PreArgs) : List Bool :=
  a.tr.classes.map (fun k => decide (k = a.clsId))

def selGtIds (a : PreArgs) : List ℕ := maskFilter (gtClassMask a) a.gt.ids

def selGtClasses (a : PreArgs) : List ℕ := maskFilter (gtClassMask a) a.gt.classes

def selGtOcc (a : PreArgs) : List ℤ := maskFilter (gtClassMask a) a.gt.occlusion

def selGtTrunc (a : PreArgs) : List ℤ := maskFilter (gtClassMask a) a.gt.truncation

def selGtDets (a : PreArgs) : List Det := maskFilter (gtClassMask a) a.gt.dets

def selTrIds (a : PreArgs) : List ℕ := maskFilter (trClassMask a) a.tr.ids

def selTrDets (a : PreArgs) : List Det := maskFilter (trClassMask a) a.tr.dets

def selTrConf (a : PreArgs) : List ℚ := maskFilter (trClassMask a) a.tr.confidences

/-- `similarity_scores[gt_class_mask, :][:, tracker_class_mask]` (3D). -/
def selSim3d (a : PreArgs) : List (List ℚ) :=
  (maskFilter (gtClassMask a) a.sim3d).map (maskFilter (trClassMask a))

/-- `similarity_scores_2d[gt_class_mask, :][:, tracker_class_mask]`. -/
def selSim2d (a : PreArgs) : List (List ℚ) :=
  (maskFilter (gtClassMask a) a.sim2d).map (maskFilter (trClassMask a))

/-- `matching_scores`: copy of the selected 2D matrix with entries below the
0.25 threshold zeroed (`matching_scores[matching_scores < 0.25] = 0`). -/
def matchingScores (a : PreArgs) : List (List ℚ) :=
  (selSim2d a).map (fun row => row.map (fun v => if v < 1/4 then 0 else v))

/-- Number of selected tracker boxes, `tracker_ids.shape[0]`. -/
def nTr (a : PreArgs) : ℕ := (selTrIds a).length

/-- `gt_ids.shape[0] > 0 and tracker_ids.shape[0] > 0`: whether the
matching-based removal branch runs at all. -/
def doMatching (a : PreArgs) : Prop :=
  (selGtIds a) ≠ [] ∧ (selTrIds a) ≠ []

instance (a : PreArgs) : Decidable (doMatching a) := by
  unfold doMatching; infer_instance

/-- `actually_matched_mask` applied to the solver's output: only matches of
strictly positive (thresholded) weight are kept. -/
def actuallyMatched (a : PreArgs) : List (ℕ × ℕ) :=
  a.matching.filter (fun p => decide (0 < entry (matchingScores a) p.1 p.2))

/-- `match_cols` after the zero-weight filter. -/
def matchCols (a : PreArgs) : List ℕ := (actuallyMatched a).map (fun p => p.2)

/-- The per-matched-row removal condition of step 2: the matched ground-truth
box is of a distractor class, or occluded beyond `max_occlusion`, or
truncated beyond `max_truncation`. -/
def gtRemovalCond (a : PreArgs) (r : ℕ) : Prop :=
  (selGtClasses a).getD r 0 ∈ a.distractors ∨
    max_occlusion < (selGtOcc a).getD r 0 ∨
    max_truncation < (selGtTrunc a).getD r 0

instance (a : PreArgs) (r : ℕ) : Decidable (gtRemovalCond a r) := by
  unfold gtRemovalCond; infer_instance

/-- `to_remove_matched = match_cols[to_remove_matched_mask]` (empty when the
matching branch is skipped). -/
def toRemoveMatched (a : PreArgs) : List ℕ :=
  if doMatching a then
    ((actuallyMatched a).filter (fun p => decide (gtRemovalCond a p.1))).map (fun p => p.2)
  else []

/-- `unmatched_indices`: `np.arange(n)` minus the (actually) matched columns
when the matching branch runs, all of `np.arange(n)` otherwise. -/
def unmatchedIndices (a : PreArgs) : List ℕ :=
  if doMatching a then (List.range (nTr a)).filter (fun j => decide (j ∉ matchCols a))
  else List.range (nTr a)

/-- `is_too_small` for tracker index `j`: pixel height
`dets[j, 3] - dets[j, 1] <= self.min_height`. -/
def tooSmall (a : PreArgs) (j : ℕ) : Prop :=
  ((selTrDets a).getD j default).y1 - ((selTrDets a).getD j default).y0 ≤ min_height

instance (a : PreArgs) (j : ℕ) : Decidable (tooSmall a j) := by
  unfold tooSmall; infer_instance

/-- `is_within_crowd_ignore_region` for tracker index `j`: some crowd ignore
region overlaps it with intersection-over-own-area above 0.5. -/
def inCrowd (a : PreArgs) (j : ℕ) : Prop :=
  ∃ r ∈ a.gt.crowd, 1/2 < ioa ((selTrDets a).getD j default) r

instance (a : PreArgs) (j : ℕ) : Decidable (inCrowd a j) := by
  unfold inCrowd; infer_instance

/-- `to_remove_unmatched`. -/
def toRemoveUnmatched (a : PreArgs) : List ℕ :=
  (unmatchedIndices a).filter (fun j => decide (tooSmall a j ∨ inCrowd a j))

/-- `to_remove_tracker = np.concatenate((to_remove_matched, to_remove_unmatched))`. -/
def toRemoveTracker (a : PreArgs) : List ℕ :=
  toRemoveMatched a ++ toRemoveUnmatched a

/-- The tracker indices surviving `np.delete(•, to_remove_tracker)`. -/
def keptTrIdx (a : PreArgs) : List ℕ :=
  (List.range (nTr a)).filter (fun j => decide (j ∉ toRemoveTracker a))

/-- `gt_to_keep_mask`: not occluded or truncated beyond the limits, and of
the evaluated class itself (distractors dropped). -/
def gtKeepMask (a : PreArgs) : List Bool :=
  (List.range (selGtIds a).length).map
    (fun r => decide ((selGtOcc a).getD r 0 ≤ max_occlusion ∧
       (selGtTrunc a).getD r 0 ≤ max_truncation ∧ (selGtClasses a).getD r 0 = a.clsId))

/-- The output of one loop iteration: the `data[...][t]` fields. -/
structure FrameOut where
  gt_ids : List ℕ
  gt_dets : List Det
  tracker_ids : List ℕ
  tracker_dets : List Det
  tracker_confidences : List ℚ
  similarity_scores : List (List ℚ)
  deriving Repr, DecidableEq

/-- One iteration of the preprocessing loop of `get_preprocessed_seq_data`
(everything between the class-mask selection and the id accumulation). -/
def processFrame (a : PreArgs) : FrameOut :=
  let kept := keptTrIdx a
  let simCols := (selSim3d a).map (fun row => kept.map (fun j => row.getD j 0))
  { gt_ids := maskFilter (gtKeepMask a) (selGtIds a)
    gt_dets := maskFilter (gtKeepMask a) (selGtDets a)
    tracker_ids := kept.map (fun j => (selTrIds a).getD j 0)
    tracker_dets := kept.map (fun j => (selTrDets a).getD j default)
    tracker_confidences := kept.map (fun j => (selTrConf a).getD j 0)
    similarity_scores := maskFilter (gtKeepMask a) simCols }

/-! ## Sequence-level relabeling -/

/-- Sorted insertion preserving distinctness; building block of `npUnique`. -/
def insertU (x : ℕ) : List ℕ → List ℕ
  | [] => [x]
  | y :: ys => if x < y then x :: y :: ys else if x = y then y :: ys else y :: insertU x ys

/-- `np.unique`: the sorted list of distinct values. -/
def npUnique (l : List ℕ) : List ℕ := l.foldr insertU []

/-- The relabeling lookup (`gt_id_map` / `tracker_id_map`): the source builds
a NaN-initialised array indexed by the original id with
`id_map[unique_ids] = np.arange(len(unique_ids))`, so a surviving original
id is sent to its index in the sorted list of distinct surviving ids. -/
def relabel (allIds : List ℕ) (x : ℕ) : ℕ := (npUnique allIds).indexOf x

/-- One raw frame of a sequence as handed to `get_preprocessed_seq_data`
(the class has not been resolved yet). -/
structure RawFrame where
  gt : GtFrame
  tr : TrFrame
  sim3d : List (List ℚ)
  sim2d : List (List ℚ)

/-- `self.class_name_to_class_id`. -/
def classNameToClassId : String → ℕ
  | "car" => 1
  | "van" => 2
  | "truck" => 3
  | "pedestrian" => 4
  | "person" => 5
  | "cyclist" => 6
  | "tram" => 7
  | "misc" => 8
  | "dontcare" => 9
  | "car_2" => 1
  | _ => 0

/-- The sequence-level output `data` of `get_preprocessed_seq_data`. -/
structure SeqOut where
  frames : List FrameOut
  num_gt_ids : ℕ
  num_tracker_ids : ℕ
  num_gt_dets : ℕ
  num_tracker_dets : ℕ

def mkArgs (clsId : ℕ) (ds : List ℕ) (rf : RawFrame) (m : List (ℕ × ℕ)) : PreArgs :=
  { clsId := clsId, distractors := ds, gt := rf.gt, tr := rf.tr,
    sim3d := rf.sim3d, sim2d := rf.sim2d, matching := m }

/-- Apply the relabeling lookup tables to one frame's surviving ids. -/
def relabelFrame (allGt allTr : List ℕ) (f : FrameOut) : FrameOut :=
  { f with gt_ids := f.gt_ids.map (relabel allGt),
           tracker_ids := f.tracker_ids.map (relabel allTr) }

/-- The whole per-class preprocessing `get_preprocessed_seq_data(raw_data, cls)`:
class resolution (raising for a class outside {pedestrian, car} before any
frame is touched), the per-frame loop, the id relabeling pass, the overview
statistics, and the final uniqueness check. -/
def get_preprocessed_seq_data (cls : String) (frames : List RawFrame)
    (matchings : List (List (ℕ × ℕ))) : Except String SeqOut :=
  if cls = "pedestrian" ∨ cls = "car" then
    let ds := if cls = "pedestrian" then [classNameToClassId "person"]
              else [classNameToClassId "van"]
    let clsId := classNameToClassId cls
    let outs := (frames.zip matchings).map (fun p => processFrame (mkArgs clsId ds p.1 p.2))
    let allGt := (outs.map FrameOut.gt_ids).flatten
    let allTr := (outs.map FrameOut.tracker_ids).flatten
    let fin := outs.map (relabelFrame allGt allTr)
    -- Modelled from the spec (§7b): `self._check_unique_ids(data)` lives in
    -- `_BaseDataset` (not in this source file); per the spec a duplicate
    -- identity within one frame after filtering is fatal.
    if fin.all (fun f => f.gt_ids.Nodup ∧ f.tracker_ids.Nodup) then
      Except.ok { frames := fin,
                  num_gt_ids := (npUnique allGt).length,
                  num_tracker_ids := (npUnique allTr).length,
                  num_gt_dets := (outs.map (fun f => f.gt_ids.length)).sum,
                  num_tracker_dets := (outs.map (fun f => f.tracker_ids.length)).sum }
    else Except.error "Tracker has overlapping IDs"
  else Except.error "Class is not evaluatable"

/-! ## Helper lemmas about the tracker-removal bookkeeping -/

lemma mem_keptTrIdx (a : PreArgs) (j : ℕ) :
    j ∈ keptTrIdx a ↔ j < nTr a ∧ j ∉ toRemoveTracker a := by
  simp [keptTrIdx, List.mem_filter, List.mem_range]

lemma toRemoveMatched_subset_matchCols (a : PreArgs) :
    toRemoveMatched a ⊆ matchCols a := by
  unfold toRemoveMatched matchCols
  split
  · intro x hx
    simp only [List.mem_map] at hx ⊢
    obtain ⟨p, hp, rfl⟩ := hx
    exact ⟨p, List.mem_of_mem_filter hp, rfl⟩
  · intro x hx; simp at hx

lemma mem_unmatched_not_matchCol (a : PreArgs) (j : ℕ)
    (hdo : doMatching a) (hj : j ∈ unmatchedIndices a) : j ∉ matchCols a := by
  unfold unmatchedIndices at hj
  rw [if_pos hdo] at hj
  simpa using (List.mem_filter.mp hj).2

lemma unmatched_subset_range (a : PreArgs) :
    unmatchedIndices a ⊆ List.range (nTr a) := by
  unfold unmatchedIndices
  split
  · intro x hx; exact List.mem_of_mem_filter hx
  · exact fun x h => h

lemma mem_toRemoveMatched (a : PreArgs) (hdo : doMatching a) (j : ℕ) :
    j ∈ toRemoveMatched a ↔ ∃ p ∈ actuallyMatched a, gtRemovalCond a p.1 ∧ p.2 = j := by
  unfold toRemoveMatched
  rw [if_pos hdo]
  simp only [List.mem_map, List.mem_filter, decide_eq_true_eq]
  constructor
  · rintro ⟨p, ⟨hp, hc⟩, rfl⟩; exact ⟨p, hp, hc, rfl⟩
  · rintro ⟨p, hp, hc, rfl⟩; exact ⟨p, ⟨hp, hc⟩, rfl⟩

lemma actuallyMatched_subset (a : PreArgs) : actuallyMatched a ⊆ a.matching :=
  fun _ h => List.mem_of_mem_filter h

/-- **C1.** For every frame with at least one selected ground-truth box and
one selected tracker box, after zeroing 2D-IoU entries below 0.25, running
the bipartite matching on the thresholded matrix and discarding matches of
exactly zero weight, a matched tracker box is deleted — from ids, boxes,
confidences, and its similarity-matrix column — if and only if its matched
ground-truth box belongs to the distractor class, or has occlusion
level > 2, or has truncation level > 0. -/
theorem matched_tracker_removed_iff (a : PreArgs) (r j : ℕ)
    (hgt : selGtIds a ≠ []) (htr : selTrIds a ≠ [])
    (hcols : ∀ p ∈ a.matching, p.2 < nTr a)
    (hnd : (a.matching.map Prod.snd).Nodup)
    (hmem : (r, j) ∈ actuallyMatched a) :
    (j ∉ keptTrIdx a ↔ gtRemovalCond a r) ∧
    (processFrame a).tracker_ids = (keptTrIdx a).map (fun i => (selTrIds a).getD i 0) ∧
    (processFrame a).tracker_dets = (keptTrIdx a).map (fun i => (selTrDets a).getD i default) ∧
    (processFrame a).tracker_confidences =
      (keptTrIdx a).map (fun i => (selTrConf a).getD i 0) ∧
    (processFrame a).similarity_scores =
      maskFilter (gtKeepMask a)
        ((selSim3d a).map (fun row => (keptTrIdx a).map (fun i => row.getD i 0))) := by
  have hdo : doMatching a := ⟨hgt, htr⟩
  have hmm : (r, j) ∈ a.matching := actuallyMatched_subset a hmem
  have hjn : j < nTr a := hcols _ hmm
  have hjcol : j ∈ matchCols a := List.mem_map.mpr ⟨(r, j), hmem, rfl⟩
  have hnotun : j ∉ toRemoveUnmatched a := by
    intro hu
    have : j ∈ unmatchedIndices a := List.mem_of_mem_filter hu
    exact mem_unmatched_not_matchCol a j hdo this hjcol
  refine ⟨?_, rfl, rfl, rfl, rfl⟩
  rw [mem_keptTrIdx]
  constructor
  · intro hnk
    have hrem : j ∈ toRemoveTracker a := by
      by_contra hnr
      exact hnk ⟨hjn, hnr⟩
    rcases List.mem_append.mp hrem with hM | hU
    · obtain ⟨p, hp, hc, hpj⟩ := (mem_toRemoveMatched a hdo j).mp hM
      have : p = (r, j) := by
        refine List.inj_on_of_nodup_map hnd (actuallyMatched_subset a hp) hmm ?_
        simpa using hpj
      rwa [show p.1 = r by rw [this]] at hc
    · exact absurd hU hnotun
  · intro hc hk
    apply hk.2
    apply List.mem_append.mpr
    exact Or.inl ((mem_toRemoveMatched a hdo j).mpr ⟨(r, j), hmem, hc, rfl⟩)

/-- A generic concrete detection used in witnesses. -/
def dUnit : Det := ⟨0, 0, 50, 50, 1, 1, 1, 0, 0, 0, 1, 0⟩

/-- Witness frame for the matched-removal rule: one ground-truth car with
occlusion level 3 matched at 2D IoU 0.8 to one tracker car. -/
def exA1 : PreArgs :=
  { clsId := 1, distractors := [2],
    gt := ⟨[3], [1], [3], [0], [dUnit], []⟩,
    tr := ⟨[7], [1], [9/10], [dUnit]⟩,
    sim3d := [[9/10]], sim2d := [[4/5]], matching := [(0, 0)] }

theorem matched_tracker_removed_iff_witness : 0 ∉ keptTrIdx exA1 :=
  ((matched_tracker_removed_iff exA1 0 0 (by decide) (by decide) (by decide)
      (by decide)
      (by norm_num [actuallyMatched, exA1, entry, matchingScores, selSim2d,
            maskFilter, trClassMask, gtClassMask])).1).mpr (by decide)

/-- **C2.** For every frame, a tracker box left unmatched by the bipartite
matching is deleted if and only if its pixel height `y1 - y0` is at most 25,
or its intersection-over-own-area with some crowd ignore region
exceeds 0.5. -/
theorem unmatched_tracker_removed_iff (a : PreArgs) (j : ℕ)
    (hj : j ∈ unmatchedIndices a) :
    j ∉ keptTrIdx a ↔ tooSmall a j ∨ inCrowd a j := by
  have hjr : j < nTr a := List.mem_range.mp (unmatched_subset_range a hj)
  have hnotM : j ∉ toRemoveMatched a := by
    by_cases hdo : doMatching a
    · intro hM
      exact mem_unmatched_not_matchCol a j hdo hj (toRemoveMatched_subset_matchCols a hM)
    · unfold toRemoveMatched
      rw [if_neg hdo]
      simp
  rw [mem_keptTrIdx]
  constructor
  · intro hnk
    have hrem : j ∈ toRemoveTracker a := by
      by_contra hnr
      exact hnk ⟨hjr, hnr⟩
    rcases List.mem_append.mp hrem with hM | hU
    · exact absurd hM hnotM
    · simpa using (List.mem_filter.mp hU).2
  · intro hc hk
    apply hk.2
    apply List.mem_append.mpr
    refine Or.inr (List.mem_filter.mpr ⟨hj, by simpa using hc⟩)

/-- Witness frame for the unmatched-removal rule: no selected ground truth,
three tracker cars: index 0 of pixel height 10, index 1 of height 50 with
IoA 0.6 against the first crowd region, index 2 of height 50 with maximal
IoA 0.4 against the second crowd region. -/
def exA2 : PreArgs :=
  { clsId := 1, distractors := [2],
    gt := ⟨[], [], [], [], [],
           [⟨0, 0, 6, 50, 0, 0, 0, 0, 0, 0, 1, 0⟩,
            ⟨20, 0, 24, 50, 0, 0, 0, 0, 0, 0, 1, 0⟩]⟩,
    tr := ⟨[1, 2, 3], [1, 1, 1], [1, 1, 1],
           [⟨0, 0, 50, 10, 1, 1, 1, 0, 0, 0, 1, 0⟩,
            ⟨0, 0, 10, 50, 1, 1, 1, 0, 0, 0, 1, 0⟩,
            ⟨20, 0, 30, 50, 1, 1, 1, 0, 0, 0, 1, 0⟩]⟩,
    sim3d := [], sim2d := [], matching := [] }

theorem unmatched_tracker_removed_iff_witness :
    0 ∉ keptTrIdx exA2 ∧ 1 ∉ keptTrIdx exA2 ∧ 2 ∈ keptTrIdx exA2 :=
  ⟨(unmatched_tracker_removed_iff exA2 0 (by decide)).mpr
     (by norm_num [tooSmall, inCrowd, ioa, min_height, selTrDets, maskFilter,
           trClassMask, exA2]),
   (unmatched_tracker_removed_iff exA2 1 (by decide)).mpr
     (by norm_num [tooSmall, inCrowd, ioa, min_height, selTrDets, maskFilter,
           trClassMask, exA2]),
   not_not.mp (fun h =>
     (by norm_num [tooSmall, inCrowd, ioa, min_height, selTrDets, maskFilter,
           trClassMask, exA2] : ¬(tooSmall exA2 2 ∨ inCrowd exA2 2))
       ((unmatched_tracker_removed_iff exA2 2 (by decide)).mp h))⟩

/-- **C10.** For every frame in which no ground-truth box of the target or
distractor class is selected (or no tracker box of the target class is
selected), the matching branch is skipped, every selected tracker box is
treated as unmatched, and the surviving tracker indices are exactly those
passing both the pixel-height filter and the crowd-ignore-region filter. -/
theorem empty_selection_all_unmatched (a : PreArgs)
    (h : selGtIds a = [] ∨ selTrIds a = []) :
    unmatchedIndices a = List.range (nTr a) ∧ toRemoveMatched a = [] ∧
    keptTrIdx a = (List.range (nTr a)).filter
      (fun j => decide (¬(tooSmall a j ∨ inCrowd a j))) := by
  have hdo : ¬ doMatching a := by
    unfold doMatching
    tauto
  have hun : unmatchedIndices a = List.range (nTr a) := by
    unfold unmatchedIndices
    rw [if_neg hdo]
  have hm : toRemoveMatched a = [] := by
    unfold toRemoveMatched
    rw [if_neg hdo]
  refine ⟨hun, hm, ?_⟩
  unfold keptTrIdx
  apply List.filter_congr
  intro j hjr
  have : (j ∈ toRemoveTracker a) ↔ (tooSmall a j ∨ inCrowd a j) := by
    unfold toRemoveTracker toRemoveUnmatched
    rw [hm, hun]
    simp only [List.nil_append, List.mem_filter, decide_eq_true_eq]
    exact ⟨fun p => p.2, fun p => ⟨hjr, p⟩⟩
  simp [this]

theorem empty_selection_all_unmatched_witness :
    keptTrIdx exA2 = (List.range (nTr exA2)).filter
      (fun j => decide (¬(tooSmall exA2 j ∨ inCrowd exA2 j))) :=
  (empty_selection_all_unmatched exA2 (by decide)).2.2

/-! ## Relabeling: `npUnique` facts (claim C3) -/

lemma mem_insertU {x y : ℕ} : ∀ {l : List ℕ}, y ∈ insertU x l ↔ y = x ∨ y ∈ l
  | [] => by simp [insertU]
  | z :: zs => by
    unfold insertU
    by_cases h1 : x < z
    · rw [if_pos h1]; simp
    · rw [if_neg h1]
      by_cases h2 : x = z
      · rw [if_pos h2]
        subst h2
        simp only [List.mem_cons]
        tauto
      · rw [if_neg h2]
        simp only [List.mem_cons, mem_insertU (l := zs)]
        tauto

lemma sorted_insertU {x : ℕ} : ∀ {l : List ℕ},
    List.Pairwise (· < ·) l → List.Pairwise (· < ·) (insertU x l)
  | [], _ => by simp [insertU]
  | z :: zs, h => by
    unfold insertU
    obtain ⟨hz, hzs⟩ := List.pairwise_cons.mp h
    by_cases h1 : x < z
    · rw [if_pos h1]
      refine List.pairwise_cons.mpr ⟨?_, h⟩
      intro b hb
      rcases List.mem_cons.mp hb with rfl | hb
      · exact h1
      · exact h1.trans (hz b hb)
    · rw [if_neg h1]
      by_cases h2 : x = z
      · rw [if_pos h2]; exact h
      · rw [if_neg h2]
        have hzx : z < x := lt_of_le_of_ne (not_lt.mp h1) (fun e => h2 e.symm)
        refine List.pairwise_cons.mpr ⟨?_, sorted_insertU hzs⟩
        intro b hb
        rcases mem_insertU.mp hb with rfl | hb
        · exact hzx
        · exact hz b hb

lemma sorted_npUnique (l : List ℕ) : List.Pairwise (· < ·) (npUnique l) := by
  unfold npUnique
  induction l with
  | nil => simp
  | cons x xs ih => exact sorted_insertU ih

lemma mem_npUnique {y : ℕ} {l : List ℕ} : y ∈ npUnique l ↔ y ∈ l := by
  unfold npUnique
  induction l with
  | nil => simp
  | cons x xs ih =>
    simp only [List.foldr_cons, mem_insertU, List.mem_cons, ih]

lemma nodup_npUnique (l : List ℕ) : (npUnique l).Nodup :=
  (sorted_npUnique l).imp ne_of_lt

/-- **C3.** After all frames of a sequence/class are processed, the
relabeling built from the accumulated surviving ids (`relabel ids`, the
`id_map` lookup of the source applied via `relabelFrame` inside
`get_preprocessed_seq_data`) maps the set of surviving original identities
bijectively onto the contiguous range `[0, G)` where
`G = (npUnique ids).length` is the number of distinct surviving identities
(the recorded `num_gt_ids` / `num_tracker_ids`); the mapping is strictly
monotone in the original value, with no gaps and no repeats. -/
theorem relabel_bijective_monotone (ids : List ℕ) :
    (∀ x ∈ ids, relabel ids x < (npUnique ids).length) ∧
    (∀ x ∈ ids, ∀ y ∈ ids, relabel ids x = relabel ids y → x = y) ∧
    (∀ x ∈ ids, ∀ y ∈ ids, x < y → relabel ids x < relabel ids y) ∧
    (∀ k, k < (npUnique ids).length → ∃ x ∈ ids, relabel ids x = k) ∧
    (∀ x, x ∈ npUnique ids ↔ x ∈ ids) ∧ (npUnique ids).Nodup := by
  have hmemb : ∀ x ∈ ids, x ∈ npUnique ids := fun x hx => mem_npUnique.mpr hx
  simp only [relabel]
  refine ⟨?_, ?_, ?_, ?_, fun x => mem_npUnique, nodup_npUnique ids⟩
  · intro x hx
    exact List.indexOf_lt_length.mpr (hmemb x hx)
  · intro x hx y hy h
    exact (List.indexOf_inj (hmemb x hx) (hmemb y hy)).mp h
  · intro x hx y hy hxy
    by_contra hle
    rcases lt_or_eq_of_le (not_lt.mp hle) with hlt | heq
    · -- indexOf y < indexOf x would force y < x in the sorted list
      have hx' := List.indexOf_lt_length.mpr (hmemb x hx)
      have h := List.pairwise_iff_get.mp (sorted_npUnique ids)
          ⟨_, List.indexOf_lt_length.mpr (hmemb y hy)⟩ ⟨_, hx'⟩ hlt
      rw [List.indexOf_get, List.indexOf_get] at h
      exact absurd (h.trans hxy) (lt_irrefl y)
    · have hyx := (List.indexOf_inj (hmemb y hy) (hmemb x hx)).mp heq
      rw [hyx] at hxy
      exact lt_irrefl x hxy
  · intro k hk
    refine ⟨(npUnique ids).get ⟨k, hk⟩, mem_npUnique.mp (List.get_mem _ _ hk), ?_⟩
    have := List.indexOf_getElem (nodup_npUnique ids) k hk
    simpa [List.get_eq_getElem] using this

theorem relabel_bijective_monotone_witness :
    ∃ x ∈ [7, 3, 3, 10], relabel [7, 3, 3, 10] x = 1 :=
  (relabel_bijective_monotone [7, 3, 3, 10]).2.2.2.1 1 (by decide)

/-! ## Oriented 3D box geometry (`__polygon_clip` and friends) -/

/-- A point of the ground plane `(x, z)`. -/
abbrev Pt := ℚ × ℚ

/-- A point of 3D camera space `(x, y, z)`. -/
abbrev Vec3 := ℚ × ℚ × ℚ

/-- The strict `inside` test of `__polygon_clip`: `p` is strictly on the
left of the directed clip edge `cp1 → cp2`. -/
def insideQ (cp1 cp2 p : Pt) : Prop :=
  (cp2.1 - cp1.1) * (p.2 - cp1.2) > (cp2.2 - cp1.2) * (p.1 - cp1.1)

instance (cp1 cp2 p : Pt) : Decidable (insideQ cp1 cp2 p) := by
  unfold insideQ; infer_instance

/-- `computeIntersection` of `__polygon_clip`: intersection of the clip line
`cp1cp2` with the segment line `se`. -/
def computeIntersection (cp1 cp2 s e : Pt) : Pt :=
  let dc : Pt := (cp1.1 - cp2.1, cp1.2 - cp2.2)
  let dp : Pt := (s.1 - e.1, s.2 - e.2)
  let n1 := cp1.1 * cp2.2 - cp1.2 * cp2.1
  let n2 := s.1 * e.2 - s.2 * e.1
  let n3 := 1 / (dc.1 * dp.2 - dc.2 * dp.1)
  ((n1 * dp.1 - n2 * dc.1) * n3, (n1 * dp.2 - n2 * dc.2) * n3)

/-- The inner `for subjectVertex in inputList` loop of `__polygon_clip`,
with `s` the previous subject vertex. -/
def clipPass (cp1 cp2 : Pt) : Pt → List Pt → List Pt
  | _, [] => []
  | s, e :: rest =>
    (if insideQ cp1 cp2 e then
        (if insideQ cp1 cp2 s then [e] else [computeIntersection cp1 cp2 s e, e])
      else if insideQ cp1 cp2 s then [computeIntersection cp1 cp2 s e] else [])
      ++ clipPass cp1 cp2 e rest

/-- One `for clipVertex in clipPolygon` iteration of `__polygon_clip`:
`s` starts at `inputList[-1]`. -/
def clipStage (cp1 cp2 : Pt) (input : List Pt) : List Pt :=
  match input.getLast? with
  | none => []
  | some s0 => clipPass cp1 cp2 s0 input

/-- The outer loop of `__polygon_clip`, including the early
`if len(outputList) == 0: return None`. -/
def clipLoop : Pt → List Pt → List Pt → Option (List Pt)
  | _, [], out => some out
  | cp1, cp2 :: rest, out =>
    let out2 := clipStage cp1 cp2 out
    if out2 = [] then none else clipLoop cp2 rest out2

/-- `__polygon_clip(subjectPolygon, clipPolygon)`; `cp1` starts at
`clipPolygon[-1]`; `None` is the empty-intersection sentinel. -/
def polygon_clip (subject clip : List Pt) : Option (List Pt) :=
  match clip.getLast? with
  | none => some subject
  | some cl => clipLoop cl clip subject

/-- The cyclic shoelace sum of a polygon (twice its signed area). -/
def shoelace (pts : List Pt) : ℚ :=
  ((pts.zip (pts.rotate 1)).map (fun q => q.1.1 * q.2.2 - q.2.1 * q.1.2)).sum

/-- Modelled from the spec (§4.3 Convex Hull Area): the external
`scipy.spatial.ConvexHull(inter_p).volume` in `__convex_hull_intersection`;
for the convex polygons produced by the clipper this is the polygon's
area, i.e. half the absolute shoelace sum. -/
def hullVolume (pts : List Pt) : ℚ := |shoelace pts| / 2

/-- `__convex_hull_intersection(p1, p2)`: the clipped polygon and its hull
area, `(None, 0.0)` when the clip is empty. -/
def convex_hull_intersection (p1 p2 : List Pt) : Option (List Pt) × ℚ :=
  match polygon_clip p1 p2 with
  | some ip => (some ip, hullVolume ip)
  | none => (none, 0)

/-- The 8 corners of `__compute_box_3d` before rotation and translation:
`x_corners = [l/2, l/2, -l/2, -l/2, ...]`, `y_corners = [0,0,0,0,-h,...]`,
`z_corners = [w/2, -w/2, -w/2, w/2, ...]`. -/
def localCorners (b : Det) : Fin 8 → Vec3 :=
  ![(b.l/2, 0, b.w/2), (b.l/2, 0, -b.w/2), (-b.l/2, 0, -b.w/2), (-b.l/2, 0, b.w/2),
    (b.l/2, -b.h, b.w/2), (b.l/2, -b.h, -b.w/2), (-b.l/2, -b.h, -b.w/2), (-b.l/2, -b.h, b.w/2)]

/-- `__compute_box_3d(obj)`: rotate the local corners about the vertical
axis with `__roty(obj[10])` (the matrix `[[c,0,s],[0,1,0],[-s,0,c]]` with
`c = cos ry = b.ryc`, `s = sin ry = b.rys`) and translate by the center. -/
def computeBox3d (b : Det) : Fin 8 → Vec3 := fun i =>
  let p := localCorners b i
  (b.cx + b.ryc * p.1 + b.rys * p.2.2, b.cy + p.2.1, b.cz - b.rys * p.1 + b.ryc * p.2.2)

/-- The top-face footprint `[(corners[i,0], corners[i,2]) for i in
range(3,-1,-1)]` used by `__box3d_iou` and `__bbox3d_min_oobb`. -/
def rectOf (c : Fin 8 → Vec3) : List Pt :=
  [((c 3).1, (c 3).2.2), ((c 2).1, (c 2).2.2), ((c 1).1, (c 1).2.2), ((c 0).1, (c 0).2.2)]

/-- `__box3d_vol(corners)`: product of the three edge lengths obtained as
corner distances (`np.sqrt` is the explicit parameter `sqrt`). -/
def box3d_vol (sqrt : ℚ → ℚ) (c : Fin 8 → Vec3) : ℚ :=
  sqrt (((c 0).1 - (c 1).1)^2 + ((c 0).2.1 - (c 1).2.1)^2 + ((c 0).2.2 - (c 1).2.2)^2) *
    sqrt (((c 1).1 - (c 2).1)^2 + ((c 1).2.1 - (c 2).2.1)^2 + ((c 1).2.2 - (c 2).2.2)^2) *
    sqrt (((c 0).1 - (c 4).1)^2 + ((c 0).2.1 - (c 4).2.1)^2 + ((c 0).2.2 - (c 4).2.2)^2)

/-- `__box3d_iou(corners1, corners2)` = `(inter_vol, vol1, vol2)`:
footprint clip area times the clamped vertical overlap, and both volumes. -/
def box3d_iou (sqrt : ℚ → ℚ) (c1 c2 : Fin 8 → Vec3) : ℚ × ℚ × ℚ :=
  let interArea := (convex_hull_intersection (rectOf c1) (rectOf c2)).2
  let ymax := min (c1 0).2.1 (c2 0).2.1
  let ymin := max (c1 4).2.1 (c2 4).2.1
  (interArea * max 0 (ymax - ymin), box3d_vol sqrt c1, box3d_vol sqrt c2)

/-! ## `__min_bounding_rect`

The source manipulates edge angles through
`abs(math.atan2(ey, ex) % (math.pi/2))` and later only uses an angle again
through `cos` entries of a rotation matrix.  The embedding represents an
angle by a (not necessarily unit) direction vector `(x, y)` proportional to
`(cos α, sin α)`: `atan2(ey, ex)` is the direction `(ex, ey)`, and reducing
modulo 90° into `[0, π/2)` maps `(ex, ey)` to the unique vector among
`(ex, ey), (ey, -ex), (-ex, -ey), (-ey, ex)` whose first coordinate is
positive and second nonnegative. -/

/-- `sys.maxsize`, the initial area of the running minimum. -/
def sysMaxsize : ℚ := 9223372036854775807

/-- The `edges` array: differences of *consecutive listed* hull points
(`for i in range(len(hull_points_2d)-1)` — the closing edge from the last
point back to the first is not built). -/
def edgesOf (pts : List Pt) : List Pt :=
  (pts.zip pts.tail).map (fun q => (q.2.1 - q.1.1, q.2.2 - q.1.2))

/-- `abs(atan2(ey, ex) % (pi/2))` in direction-vector form: the quadrant
representative of the edge direction with angle in `[0, π/2)`; the final
catch-all alternative is only reached by the zero vector, which no polygon
with distinct consecutive vertices produces. -/
def canonAngle (e : Pt) : Pt :=
  if 0 < e.1 ∧ 0 ≤ e.2 then (e.1, e.2)
  else if 0 < e.2 ∧ 0 ≤ -e.1 then (e.2, -e.1)
  else if 0 < -e.1 ∧ 0 ≤ -e.2 then (-e.1, -e.2)
  else if 0 < -e.2 ∧ 0 ≤ e.1 then (-e.2, e.1)
  else (1, 0)

/-- Equality of the angles represented by two directions with positive
first coordinate: equality of tangents, cross-multiplied. -/
def slopeEq (d e : Pt) : Prop := d.2 * e.1 = e.2 * d.1

/-- Strict order of the angles represented by two directions with positive
first coordinate. -/
def slopeLt (d e : Pt) : Prop := d.2 * e.1 < e.2 * d.1

instance (d e : Pt) : Decidable (slopeEq d e) := by unfold slopeEq; infer_instance

instance (d e : Pt) : Decidable (slopeLt d e) := by unfold slopeLt; infer_instance

/-- Sorted insertion of an angle, dropping duplicates. -/
def insertAngle (d : Pt) : List Pt → List Pt
  | [] => [d]
  | e :: es =>
    if slopeEq d e then e :: es
    else if slopeLt d e then d :: e :: es
    else e :: insertAngle d es

/-- `np.unique(edge_angles)`: the ascending list of distinct edge angles. -/
def uniqueAngles (l : List Pt) : List Pt := l.foldl (fun acc d => insertAngle d acc) []

/-- `np.nanmax(l) - np.nanmin(l)` of a coordinate list. -/
def spanList (l : List ℚ) : ℚ :=
  match l with
  | [] => 0
  | x :: xs => (xs.foldl max x) - (xs.foldl min x)

/-- The area `width * height` tested for one candidate angle: the source
rotates all hull points by `R = [[cos θ, cos(θ-π/2)], [cos(θ+π/2), cos θ]]
= [[c, s], [-s, c]]` and multiplies the axis-aligned extents.  With the
unnormalized direction `d` both extents scale by `‖d‖`, so the product is
divided by `‖d‖² = d.1² + d.2²`, keeping the area rational. -/
def rotArea (d : Pt) (pts : List Pt) : ℚ :=
  (spanList (pts.map (fun p => d.1 * p.1 + d.2 * p.2)) *
    spanList (pts.map (fun p => -d.2 * p.1 + d.1 * p.2))) / (d.1^2 + d.2^2)

/-- `__min_bounding_rect(hull_points_2d)`, restricted to the two components
its only caller `__bbox3d_min_oobb` consumes: the chosen angle (as a
direction) and the minimal area.  The running minimum starts at
`(0, sys.maxsize, ...)` and is replaced only on strict improvement
(`if area < min_bbox[1]`), so the first candidate attaining the minimal
area is kept on ties. -/
def min_bounding_rect (pts : List Pt) : Pt × ℚ :=
  (uniqueAngles ((edgesOf pts).map canonAngle)).foldl
    (fun best d =>
      let area := rotArea d pts
      if area < best.2 then (d, area) else best)
    ((1, 0), sysMaxsize)

/-- `__bbox3d_min_oobb(corners1, corners2)`: minimum-bounding-rectangle
area of the convex hull of both footprints, times the vertical span
covering both boxes.  `hull` models the external
`scipy.spatial.ConvexHull(vertices)` composed with `vertices[hull.vertices]`:
it returns the hull's corner points in counter-clockwise order. -/
def bbox3d_min_oobb (hull : List Pt → List Pt) (c1 c2 : Fin 8 → Vec3) : ℚ :=
  let verts := rectOf c1 ++ rectOf c2
  let area := (min_bounding_rect (hull verts)).2
  let ymax := max (c1 0).2.1 (c2 0).2.1
  let ymin := min (c1 4).2.1 (c2 4).2.1
  area * (ymax - ymin)

/-! ## `__box_3d_GIoU` and `_calculate_similarities` -/

/-- The per-pair body of the double loop of `__box_3d_GIoU` (after the
`box_format` guard): `(giou3d + 1) / 2` with the `do_ioa` switch choosing
`inter/vol1` or `inter/union` as the first term. -/
def giouPair (sqrt : ℚ → ℚ) (hull : List Pt → List Pt) (aa bb : Det)
    (do_ioa : Bool) : ℚ :=
  let aa3 := computeBox3d aa
  let bb3 := computeBox3d bb
  let r := box3d_iou sqrt aa3 bb3
  let inter := r.1
  let vol1 := r.2.1
  let vol2 := r.2.2
  let ac := bbox3d_min_oobb hull aa3 bb3
  let g :=
    if do_ioa then inter / vol1 - (ac - (vol1 + vol2 - inter)) / ac
    else inter / (vol1 + vol2 - inter) - (ac - (vol1 + vol2 - inter)) / ac
  (g + 1) / 2

/-- `__box_3d_GIoU(bboxes1, bboxes2, do_ioa, box_format)`: the double loop,
including the per-pair `box_format` check which raises
`TrackEvalException` inside the loop body. -/
def box_3d_GIoU (sqrt : ℚ → ℚ) (hull : List Pt → List Pt)
    (bboxes1 bboxes2 : List Det) (do_ioa : Bool) (fmt : String) :
    Except String (List (List ℚ)) :=
  bboxes1.mapM (fun aa => bboxes2.mapM (fun bb =>
    if fmt ≠ "xyzhwlr" then Except.error "box_format is not implemented"
    else Except.ok (giouPair sqrt hull aa bb do_ioa)))

/-- The value `__box_3d_GIoU` returns when no exception is raised. -/
def giouMatrix (sqrt : ℚ → ℚ) (hull : List Pt → List Pt)
    (bboxes1 bboxes2 : List Det) (do_ioa : Bool) : List (List ℚ) :=
  bboxes1.map (fun aa => bboxes2.map (fun bb => giouPair sqrt hull aa bb do_ioa))

/-- `_calculate_similarities(gt_dets_t, tracker_dets_t)`: the stored pair of
per-frame matrices — the 3D GIoU matrix (computed with
`box_format='xyzhwlr'` and the default `do_ioa=False`) and the 2D IoU
matrix on columns 0-3. -/
def calculate_similarities (sqrt : ℚ → ℚ) (hull : List Pt → List Pt)
    (gts trs : List Det) : Except String (List (List ℚ)) × List (List ℚ) :=
  (box_3d_GIoU sqrt hull gts trs false "xyzhwlr",
   gts.map (fun g => trs.map (fun t => iou2d g t)))

lemma mapM_ok_eq {α β : Type} (f : α → β) (l : List α) :
    l.mapM (fun a => (Except.ok (f a) : Except String β)) = Except.ok (l.map f) := by
  induction l with
  | nil => rfl
  | cons a t ih => simp only [List.mapM_cons, List.map_cons, ih]; rfl

/-- With the supported `box_format` the double loop of `__box_3d_GIoU`
never raises and returns the full matrix. -/
lemma box_3d_GIoU_ok (sq : ℚ → ℚ) (hull : List Pt → List Pt)
    (b1 b2 : List Det) (ioa_flag : Bool) :
    box_3d_GIoU sq hull b1 b2 ioa_flag "xyzhwlr" =
      Except.ok (giouMatrix sq hull b1 b2 ioa_flag) := by
  unfold box_3d_GIoU giouMatrix
  have h : ∀ aa : Det,
      b2.mapM (fun bb =>
        if ("xyzhwlr" : String) ≠ "xyzhwlr" then
          (Except.error "box_format is not implemented" : Except String ℚ)
        else Except.ok (giouPair sq hull aa bb ioa_flag)) =
      Except.ok (b2.map (fun bb => giouPair sq hull aa bb ioa_flag)) := by
    intro aa
    have : ∀ bb : Det,
        (if ("xyzhwlr" : String) ≠ "xyzhwlr" then
          (Except.error "box_format is not implemented" : Except String ℚ)
        else Except.ok (giouPair sq hull aa bb ioa_flag)) =
        Except.ok (giouPair sq hull aa bb ioa_flag) := by
      intro bb; simp
    simp only [this]
    exact mapM_ok_eq _ b2
  simp only [h]
  exact mapM_ok_eq _ b1

/-- **C5.** For every ground-truth/tracker pair, the stored per-pair 3D
similarity value equals `((inter/union - (C - union)/C) + 1)/2` with
`union = vol1 + vol2 - inter` and `C` the enclosing volume; with the IoA
switch the first term is `inter/vol1` instead; and the stored metric
similarity matrix of `_calculate_similarities` is exactly the
`do_ioa=False` matrix, so the IoA variant is never used for it. -/
theorem stored_similarity_formula (sq : ℚ → ℚ) (hull : List Pt → List Pt)
    (gts trs : List Det) (i j : ℕ) (hi : i < gts.length) (hj : j < trs.length) :
    (calculate_similarities sq hull gts trs).1 =
      Except.ok (giouMatrix sq hull gts trs false) ∧
    entry (giouMatrix sq hull gts trs false) i j =
      ((box3d_iou sq (computeBox3d (gts.get ⟨i, hi⟩)) (computeBox3d (trs.get ⟨j, hj⟩))).1 /
          ((box3d_iou sq (computeBox3d (gts.get ⟨i, hi⟩)) (computeBox3d (trs.get ⟨j, hj⟩))).2.1 +
            (box3d_iou sq (computeBox3d (gts.get ⟨i, hi⟩)) (computeBox3d (trs.get ⟨j, hj⟩))).2.2 -
            (box3d_iou sq (computeBox3d (gts.get ⟨i, hi⟩)) (computeBox3d (trs.get ⟨j, hj⟩))).1) -
        (bbox3d_min_oobb hull (computeBox3d (gts.get ⟨i, hi⟩)) (computeBox3d (trs.get ⟨j, hj⟩)) -
            ((box3d_iou sq (computeBox3d (gts.get ⟨i, hi⟩)) (computeBox3d (trs.get ⟨j, hj⟩))).2.1 +
              (box3d_iou sq (computeBox3d (gts.get ⟨i, hi⟩)) (computeBox3d (trs.get ⟨j, hj⟩))).2.2 -
              (box3d_iou sq (computeBox3d (gts.get ⟨i, hi⟩)) (computeBox3d (trs.get ⟨j, hj⟩))).1)) /
          bbox3d_min_oobb hull (computeBox3d (gts.get ⟨i, hi⟩)) (computeBox3d (trs.get ⟨j, hj⟩)) +
        1) / 2 ∧
    giouPair sq hull (gts.get ⟨i, hi⟩) (trs.get ⟨j, hj⟩) true =
      ((box3d_iou sq (computeBox3d (gts.get ⟨i, hi⟩)) (computeBox3d (trs.get ⟨j, hj⟩))).1 /
          (box3d_iou sq (computeBox3d (gts.get ⟨i, hi⟩)) (computeBox3d (trs.get ⟨j, hj⟩))).2.1 -
        (bbox3d_min_oobb hull (computeBox3d (gts.get ⟨i, hi⟩)) (computeBox3d (trs.get ⟨j, hj⟩)) -
            ((box3d_iou sq (computeBox3d (gts.get ⟨i, hi⟩)) (computeBox3d (trs.get ⟨j, hj⟩))).2.1 +
              (box3d_iou sq (computeBox3d (gts.get ⟨i, hi⟩)) (computeBox3d (trs.get ⟨j, hj⟩))).2.2 -
              (box3d_iou sq (computeBox3d (gts.get ⟨i, hi⟩)) (computeBox3d (trs.get ⟨j, hj⟩))).1)) /
          bbox3d_min_oobb hull (computeBox3d (gts.get ⟨i, hi⟩)) (computeBox3d (trs.get ⟨j, hj⟩)) +
        1) / 2 := by
  refine ⟨box_3d_GIoU_ok sq hull gts trs false, ?_, ?_⟩
  · have h1 : (giouMatrix sq hull gts trs false).getD i [] =
        trs.map (fun bb => giouPair sq hull (gts.get ⟨i, hi⟩) bb false) := by
      unfold giouMatrix
      rw [List.getD_eq_getElem _ _ (by simpa using hi), List.getElem_map]
      rfl
    have h2 : (trs.map (fun bb => giouPair sq hull (gts.get ⟨i, hi⟩) bb false)).getD j 0 =
        giouPair sq hull (gts.get ⟨i, hi⟩) (trs.get ⟨j, hj⟩) false := by
      rw [List.getD_eq_getElem _ _ (by simpa using hj), List.getElem_map]
      rfl
    unfold entry
    rw [h1, h2]
    simp only [giouPair, Bool.false_eq_true, if_false]
  · simp only [giouPair, if_true]

theorem stored_similarity_formula_witness :
    (calculate_similarities (fun _ => 0) (fun l => l) [dUnit] [dUnit]).1 =
      Except.ok (giouMatrix (fun _ => 0) (fun l => l) [dUnit] [dUnit] false) :=
  (stored_similarity_formula (fun _ => 0) (fun l => l) [dUnit] [dUnit] 0 0
    (by decide) (by decide)).1

/-- A stacked copy of `dUnit`: same footprint, vertical center 5, so the
two boxes have no vertical overlap. -/
def dAbove : Det := ⟨0, 0, 50, 50, 1, 1, 1, 0, 5, 0, 1, 0⟩

/-- **C6.** Degenerate geometry is a value, not an error: with the
supported `box_format` the similarity engine always returns a matrix
(never raises), an empty footprint clip gives intersection `(None, 0.0)`
and hence intersection volume 0, a clipped polygon of zero hull area gives
intersection volume 0, and non-positive vertical overlap gives
intersection volume 0. -/
theorem degenerate_geometry_yields_zero (sq : ℚ → ℚ) (hull : List Pt → List Pt) :
    (∀ b1 b2 ioa_flag, box_3d_GIoU sq hull b1 b2 ioa_flag "xyzhwlr" =
        Except.ok (giouMatrix sq hull b1 b2 ioa_flag)) ∧
    (∀ p1 p2, polygon_clip p1 p2 = none → convex_hull_intersection p1 p2 = (none, 0)) ∧
    (∀ c1 c2, polygon_clip (rectOf c1) (rectOf c2) = none → (box3d_iou sq c1 c2).1 = 0) ∧
    (∀ c1 c2 ip, polygon_clip (rectOf c1) (rectOf c2) = some ip → shoelace ip = 0 →
        (box3d_iou sq c1 c2).1 = 0) ∧
    (∀ c1 c2, min (c1 0).2.1 (c2 0).2.1 ≤ max (c1 4).2.1 (c2 4).2.1 →
        (box3d_iou sq c1 c2).1 = 0) := by
  have hchi : ∀ p1 p2, polygon_clip p1 p2 = none →
      convex_hull_intersection p1 p2 = (none, 0) := by
    intro p1 p2 h
    unfold convex_hull_intersection
    rw [h]
  refine ⟨fun b1 b2 f => box_3d_GIoU_ok sq hull b1 b2 f, hchi, ?_, ?_, ?_⟩
  · intro c1 c2 h
    unfold box3d_iou
    rw [hchi _ _ h]
    simp
  · intro c1 c2 ip hclip hsl
    unfold box3d_iou convex_hull_intersection
    rw [hclip]
    simp only
    rw [show hullVolume ip = 0 by unfold hullVolume; rw [hsl]; simp]
    simp
  · intro c1 c2 h
    unfold box3d_iou
    simp only
    rw [show max 0 (min (c1 0).2.1 (c2 0).2.1 - max (c1 4).2.1 (c2 4).2.1) = 0 from
      max_eq_left (by linarith)]
    simp

theorem degenerate_geometry_yields_zero_witness :
    box_3d_GIoU (fun _ => 0) (fun l => l) [] [] false "xyzhwlr" =
      Except.ok (giouMatrix (fun _ => 0) (fun l => l) [] [] false) ∧
    (box3d_iou (fun _ => 0) (computeBox3d dUnit) (computeBox3d dAbove)).1 = 0 :=
  ⟨(degenerate_geometry_yields_zero (fun _ => 0) (fun l => l)).1 [] [] false,
   (degenerate_geometry_yields_zero (fun _ => 0) (fun l => l)).2.2.2.2
     (computeBox3d dUnit) (computeBox3d dAbove)
     (by norm_num [computeBox3d, localCorners, dUnit, dAbove])⟩

/-- **C9 counterexample.** The `box_format` check of `__box_3d_GIoU` sits
inside the per-pair double loop, so with empty box lists an unsupported
parameterization raises nothing and an empty matrix is returned — the
claim that the engine fails fast "for every input including empty box
lists" is false on the code. -/
theorem unsupported_format_empty_lists_no_error :
    box_3d_GIoU (fun _ => 0) (fun l => l) [] [] false "bogus" = Except.ok [] := rfl

/-- **C9 (amended).** Preprocessing a class outside {car, pedestrian}
raises before any frame is processed (the error is the same for every
frame input), and an unsupported box parameterization raises on the first
pair of the double loop, hence whenever both box lists are nonempty; with
an empty box list the engine instead returns an empty matrix without
raising. -/
theorem config_errors_fail_fast :
    (∀ cls frames matchings, cls ≠ "pedestrian" → cls ≠ "car" →
        get_preprocessed_seq_data cls frames matchings =
          Except.error "Class is not evaluatable") ∧
    (∀ (sq : ℚ → ℚ) (hull : List Pt → List Pt) (b1 b2 : List Det) ioa_flag fmt,
        fmt ≠ "xyzhwlr" → b1 ≠ [] → b2 ≠ [] →
        box_3d_GIoU sq hull b1 b2 ioa_flag fmt =
          Except.error "box_format is not implemented") ∧
    (∀ (sq : ℚ → ℚ) (hull : List Pt → List Pt) (b1 : List Det) ioa_flag fmt,
        box_3d_GIoU sq hull b1 [] ioa_flag fmt = Except.ok (b1.map (fun _ => []))) := by
  refine ⟨?_, ?_, ?_⟩
  · intro cls frames matchings h1 h2
    unfold get_preprocessed_seq_data
    rw [if_neg (by simp [h1, h2])]
  · intro sq hull b1 b2 ioa_flag fmt hf h1 h2
    obtain ⟨aa, t1, rfl⟩ := List.exists_cons_of_ne_nil h1
    obtain ⟨bb, t2, rfl⟩ := List.exists_cons_of_ne_nil h2
    unfold box_3d_GIoU
    simp only [List.mapM_cons, if_pos hf]
    rfl
  · intro sq hull b1 ioa_flag fmt
    unfold box_3d_GIoU
    induction b1 with
    | nil => rfl
    | cons aa t ih => simp only [List.mapM_cons, ih, List.map_cons]; rfl

theorem config_errors_fail_fast_witness :
    get_preprocessed_seq_data "van" [] [] = Except.error "Class is not evaluatable" ∧
    box_3d_GIoU (fun _ => 0) (fun l => l) [dUnit] [dUnit] false "bogus" =
      Except.error "box_format is not implemented" :=
  ⟨config_errors_fail_fast.1 "van" [] [] (by decide) (by decide),
   config_errors_fail_fast.2.1 (fun _ => 0) (fun l => l) [dUnit] [dUnit] false "bogus"
     (by decide) (by decide) (by decide)⟩

/-! ## Claim C8: the candidate set of `__min_bounding_rect` -/

/-- The update step of the `for i in range(len(edge_angles))` search:
replace the running minimum only on strict improvement. -/
def minFoldStep (pts : List Pt) (best : Pt × ℚ) (d : Pt) : Pt × ℚ :=
  let area := rotArea d pts
  if area < best.2 then (d, area) else best

lemma min_bounding_rect_eq_fold (pts : List Pt) :
    min_bounding_rect pts =
      (uniqueAngles ((edgesOf pts).map canonAngle)).foldl (minFoldStep pts)
        ((1, 0), sysMaxsize) := rfl

/-- Written from the spec's words for comparison ("for every hull edge,
compute its direction angle"): the edge set including the closing edge
from the last hull vertex back to the first. -/
def edgesOfSpec (pts : List Pt) : List Pt :=
  (pts.zip (pts.rotate 1)).map (fun q => (q.2.1 - q.1.1, q.2.2 - q.1.2))

/-- Written from the spec's words for comparison: the rectangle search run
over every hull edge, closing edge included. -/
def min_bounding_rect_spec (pts : List Pt) : Pt × ℚ :=
  (uniqueAngles ((edgesOfSpec pts).map canonAngle)).foldl (minFoldStep pts)
    ((1, 0), sysMaxsize)

/-- **C8 counterexample.** On the convex hull `[(0,0), (4,0), (5,1)]` the
source builds only the two edges `(4,0)` and `(1,1)` — `for i in
range(len(hull_points_2d)-1)` skips the closing edge `(-5,-1)` — and
returns area 5, while the minimum over the angles of *every* hull edge
(the spec's description) is 4, attained at the closing edge's angle. -/
theorem min_bounding_rect_skips_closing_edge :
    (min_bounding_rect [((0 : ℚ), (0 : ℚ)), (4, 0), (5, 1)]).2 = 5 ∧
    (min_bounding_rect_spec [((0 : ℚ), (0 : ℚ)), (4, 0), (5, 1)]).2 = 4 ∧
    rotArea (canonAngle (-5, -1)) [((0 : ℚ), (0 : ℚ)), (4, 0), (5, 1)] = 4 := by
  refine ⟨?_, ?_, ?_⟩ <;>
    norm_num [min_bounding_rect, min_bounding_rect_spec, minFoldStep, uniqueAngles,
      edgesOf, edgesOfSpec, canonAngle, insertAngle, slopeEq, slopeLt, rotArea,
      spanList, sysMaxsize, List.rotate]

lemma minFold_spec (pts : List Pt) : ∀ (cands : List Pt) (b0 : Pt × ℚ),
    (cands.foldl (minFoldStep pts) b0).2 ≤ b0.2 ∧
    (∀ d ∈ cands, (cands.foldl (minFoldStep pts) b0).2 ≤ rotArea d pts) ∧
    ((cands.foldl (minFoldStep pts) b0 = b0 ∧ ∀ d ∈ cands, b0.2 ≤ rotArea d pts) ∨
      (∃ l1 l2, cands = l1 ++ (cands.foldl (minFoldStep pts) b0).1 :: l2 ∧
        (cands.foldl (minFoldStep pts) b0).2 =
          rotArea (cands.foldl (minFoldStep pts) b0).1 pts ∧
        (cands.foldl (minFoldStep pts) b0).2 < b0.2 ∧
        ∀ d ∈ l1, (cands.foldl (minFoldStep pts) b0).2 < rotArea d pts))
  | [], b0 => by
    refine ⟨le_refl _, by simp, Or.inl ⟨rfl, by simp⟩⟩
  | d :: rest, b0 => by
    by_cases hup : rotArea d pts < b0.2
    · have hstep : minFoldStep pts b0 d = (d, rotArea d pts) := by
        unfold minFoldStep
        simp only [if_pos hup]
      have ih := minFold_spec pts rest (d, rotArea d pts)
      rw [List.foldl_cons, hstep]
      set res := rest.foldl (minFoldStep pts) (d, rotArea d pts) with hres
      obtain ⟨ihle, ihall, ihpos⟩ := ih
      refine ⟨?_, ?_, ?_⟩
      · exact le_of_lt (lt_of_le_of_lt ihle hup)
      · intro e he
        rcases List.mem_cons.mp he with rfl | he
        · exact ihle
        · exact ihall e he
      · rcases ihpos with ⟨heq, _⟩ | ⟨l1, l2, hsplit, hval, hlt, hbefore⟩
        · refine Or.inr ⟨[], rest, ?_, ?_, ?_, by simp⟩
          · rw [heq]; simp
          · rw [heq]
          · rw [heq]; exact hup
        · refine Or.inr ⟨d :: l1, l2, by rw [hsplit]; simp, hval, lt_trans hlt hup, ?_⟩
          intro e he
          rcases List.mem_cons.mp he with rfl | he
          · exact hlt
          · exact hbefore e he
    · have hstep : minFoldStep pts b0 d = b0 := by
        unfold minFoldStep
        simp only [if_neg hup]
      have ih := minFold_spec pts rest b0
      rw [List.foldl_cons, hstep]
      set res := List.foldl (minFoldStep pts) b0 rest with hres
      obtain ⟨ihle, ihall, ihpos⟩ := ih
      refine ⟨ihle, ?_, ?_⟩
      · intro e he
        rcases List.mem_cons.mp he with rfl | he
        · exact le_trans ihle (not_lt.mp hup)
        · exact ihall e he
      · rcases ihpos with ⟨heq, hall⟩ | ⟨l1, l2, hsplit, hval, hlt, hbefore⟩
        · refine Or.inl ⟨heq, ?_⟩
          intro e he
          rcases List.mem_cons.mp he with rfl | he
          · exact not_lt.mp hup
          · exact hall e he
        · refine Or.inr ⟨d :: l1, l2, by rw [hsplit]; simp, hval, hlt, ?_⟩
          intro e he
          rcases List.mem_cons.mp he with rfl | he
          · exact lt_of_lt_of_le hlt (not_lt.mp hup)
          · exact hbefore e he

/-- **C8 (amended).** For a hull supplied as an ordered vertex list, the
search computes the direction angle of every *consecutive pair* of listed
vertices (the closing edge from the last vertex back to the first is not
considered), reduces each angle modulo 90° (`canonAngle`), deduplicates
and sorts them (`uniqueAngles`), and returns the minimum `width * height`
area over these candidates, keeping the first-encountered candidate on
exact ties; with no candidate below `sys.maxsize` the initial
`(angle 0, sys.maxsize)` pair survives. -/
theorem min_bounding_rect_first_min_over_listed_edges (pts : List Pt) :
    (∀ d ∈ uniqueAngles ((edgesOf pts).map canonAngle),
        (min_bounding_rect pts).2 ≤ rotArea d pts) ∧
    ((min_bounding_rect pts = ((1, 0), sysMaxsize) ∧
        ∀ d ∈ uniqueAngles ((edgesOf pts).map canonAngle),
          sysMaxsize ≤ rotArea d pts) ∨
      (∃ l1 l2, uniqueAngles ((edgesOf pts).map canonAngle) =
          l1 ++ (min_bounding_rect pts).1 :: l2 ∧
        (min_bounding_rect pts).2 = rotArea (min_bounding_rect pts).1 pts ∧
        (min_bounding_rect pts).2 < sysMaxsize ∧
        ∀ d ∈ l1, (min_bounding_rect pts).2 < rotArea d pts)) := by
  have h := minFold_spec pts (uniqueAngles ((edgesOf pts).map canonAngle))
    ((1, 0), sysMaxsize)
  rw [← min_bounding_rect_eq_fold] at h
  exact ⟨h.2.1, h.2.2⟩

theorem min_bounding_rect_first_min_over_listed_edges_witness :
    (min_bounding_rect [((0 : ℚ), (0 : ℚ)), (4, 0), (5, 1)]).2 ≤
      rotArea (1, 1) [((0 : ℚ), (0 : ℚ)), (4, 0), (5, 1)] :=
  (min_bounding_rect_first_min_over_listed_edges
      [((0 : ℚ), (0 : ℚ)), (4, 0), (5, 1)]).1 (1, 1)
    (by norm_num [uniqueAngles, edgesOf, canonAngle, insertAngle, slopeEq, slopeLt])

/-! ## Claims C4/C7: identical boxes and the `[0,1]` range -/

/-- A concrete `np.sqrt`, conforming to the square roots actually taken at
the inputs of the evaluation theorems below (`sqrt (2^64) = 2^32`,
`sqrt 1 = 1`). -/
def sqrtFn : ℚ → ℚ := fun x => if x = 2^64 then 2^32 else if x = 1 then 1 else 0

/-- A concrete model of `vertices[ConvexHull(vertices).vertices]`,
conforming to scipy's behaviour on the duplicated-rectangle vertex lists
of the evaluation theorems below: the 4 distinct corners of
`rect1 ++ rect2` with `rect1 = rect2` are the first 4 entries, already in
counter-clockwise hull order. -/
def hullTake4 : List Pt → List Pt := fun l => l.take 4

/-- An identical-parameter box pair made of this box exercises the
`sys.maxsize` initialization of `__min_bounding_rect`: footprint
`2^32 × 2^32`, so the candidate rectangle area `2^64` is not below
`sys.maxsize = 2^63 - 1` and the search returns `sys.maxsize`. -/
def bigBox : Det := ⟨0, 0, 0, 0, 1, 2^32, 2^32, 0, 0, 0, 1, 0⟩


lemma bigRect_eval :
    rectOf (computeBox3d bigBox) =
      [(-(2^31 : ℚ), (2^31 : ℚ)), (-(2^31), -(2^31)), (2^31, -(2^31)), (2^31, 2^31)] := by
  norm_num [rectOf, computeBox3d, localCorners, bigBox]

lemma bigClip_eval :
    polygon_clip
      [(-(2^31 : ℚ), (2^31 : ℚ)), (-(2^31), -(2^31)), (2^31, -(2^31)), (2^31, 2^31)]
      [(-(2^31 : ℚ), (2^31 : ℚ)), (-(2^31), -(2^31)), (2^31, -(2^31)), (2^31, 2^31)] =
    some [((2^31 : ℚ), (2^31 : ℚ)), (-(2^31), 2^31), (-(2^31), -(2^31)), (2^31, -(2^31))] := by
  norm_num [polygon_clip, clipLoop, clipStage, clipPass, insideQ, computeIntersection]
  exact ⟨by simp, by simp⟩

lemma bigInter_eval :
    convex_hull_intersection
      [(-(2^31 : ℚ), (2^31 : ℚ)), (-(2^31), -(2^31)), (2^31, -(2^31)), (2^31, 2^31)]
      [(-(2^31 : ℚ), (2^31 : ℚ)), (-(2^31), -(2^31)), (2^31, -(2^31)), (2^31, 2^31)] =
    (some [((2^31 : ℚ), (2^31 : ℚ)), (-(2^31), 2^31), (-(2^31), -(2^31)), (2^31, -(2^31))],
      2^64) := by
  rw [convex_hull_intersection, bigClip_eval]
  norm_num [hullVolume, shoelace, List.rotate]

lemma bigIou_eval :
    box3d_iou sqrtFn (computeBox3d bigBox) (computeBox3d bigBox) =
      (2^64, 2^64, 2^64) := by
  unfold box3d_iou
  rw [bigRect_eval, bigInter_eval]
  norm_num [box3d_vol, computeBox3d, localCorners, bigBox, sqrtFn]

lemma bigCands_eval :
    uniqueAngles ((edgesOf
        [(-(2^31 : ℚ), (2^31 : ℚ)), (-(2^31), -(2^31)), (2^31, -(2^31)), (2^31, 2^31)]).map
          canonAngle) = [((2^32 : ℚ), (0 : ℚ))] := by
  norm_num [uniqueAngles, edgesOf, canonAngle, insertAngle, slopeEq, slopeLt]

lemma bigArea_eval :
    rotArea ((2^32 : ℚ), (0 : ℚ))
      [(-(2^31 : ℚ), (2^31 : ℚ)), (-(2^31), -(2^31)), (2^31, -(2^31)), (2^31, 2^31)] =
    2^64 := by
  norm_num [rotArea, spanList]

lemma bigMbr_eval :
    min_bounding_rect
      [(-(2^31 : ℚ), (2^31 : ℚ)), (-(2^31), -(2^31)), (2^31, -(2^31)), (2^31, 2^31)] =
    ((1, 0), sysMaxsize) := by
  unfold min_bounding_rect
  rw [bigCands_eval]
  simp only [List.foldl_cons, List.foldl_nil, bigArea_eval]
  norm_num [sysMaxsize]

lemma bigOobb_eval :
    bbox3d_min_oobb hullTake4 (computeBox3d bigBox) (computeBox3d bigBox) =
      9223372036854775807 := by
  unfold bbox3d_min_oobb
  rw [bigRect_eval]
  simp only [hullTake4, List.cons_append, List.nil_append, List.take_succ_cons,
    List.take_zero]
  rw [bigMbr_eval]
  norm_num [sysMaxsize, computeBox3d, localCorners, bigBox]

/-- The exact stored similarity value the pipeline computes at the
identical pair of `bigBox`es. -/
lemma bigPair_eval :
    giouPair sqrtFn hullTake4 bigBox bigBox false =
      27670116110564327423 / 18446744073709551614 := by
  simp only [giouPair]
  rw [bigIou_eval, bigOobb_eval]
  norm_num

/-- **C7 (code evaluation at the failing input).** At the identical pair of
huge boxes `bigBox` (footprint `2^32 × 2^32`, height 1) the enclosing
volume saturates at the `sys.maxsize` initialization of
`__min_bounding_rect` below the true `2^64`, and the stored similarity
entry is `27670116110564327423/18446744073709551614 ≈ 1.5`, outside
`[0,1]`. -/
theorem similarity_entry_exceeds_one_for_huge_boxes :
    entry (giouMatrix sqrtFn hullTake4 [bigBox] [bigBox] false) 0 0 =
      27670116110564327423 / 18446744073709551614 ∧
    1 < entry (giouMatrix sqrtFn hullTake4 [bigBox] [bigBox] false) 0 0 := by
  have h : entry (giouMatrix sqrtFn hullTake4 [bigBox] [bigBox] false) 0 0 =
      giouPair sqrtFn hullTake4 bigBox bigBox false := by
    simp [entry, giouMatrix]
  rw [h, bigPair_eval]
  norm_num

/-- **C4 counterexample.** For the identical pair of `bigBox`es — same
7-field parameters, positive height/width/length — the stored normalized
GIoU score is not 1: the `sys.maxsize` sentinel of `__min_bounding_rect`
caps the enclosing volume below the union volume. -/
theorem identical_huge_boxes_score_not_one :
    giouPair sqrtFn hullTake4 bigBox bigBox false ≠ 1 := by
  rw [bigPair_eval]
  norm_num

lemma computeIntersection_of_s (cp1 cp2 s e : Pt)
    (hs : (cp2.1 - cp1.1) * (s.2 - cp1.2) = (cp2.2 - cp1.2) * (s.1 - cp1.1))
    (hden : (cp1.1 - cp2.1) * (s.2 - e.2) - (cp1.2 - cp2.2) * (s.1 - e.1) ≠ 0) :
    computeIntersection cp1 cp2 s e = s := by
  unfold computeIntersection
  refine Prod.ext ?_ ?_ <;> simp only
  · rw [mul_one_div, div_eq_iff hden]
    linear_combination (s.1 - e.1) * hs
  · rw [mul_one_div, div_eq_iff hden]
    linear_combination (s.2 - e.2) * hs

lemma computeIntersection_of_e (cp1 cp2 s e : Pt)
    (he : (cp2.1 - cp1.1) * (e.2 - cp1.2) = (cp2.2 - cp1.2) * (e.1 - cp1.1))
    (hden : (cp1.1 - cp2.1) * (s.2 - e.2) - (cp1.2 - cp2.2) * (s.1 - e.1) ≠ 0) :
    computeIntersection cp1 cp2 s e = e := by
  unfold computeIntersection
  refine Prod.ext ?_ ?_ <;> simp only
  · rw [mul_one_div, div_eq_iff hden]
    linear_combination (s.1 - e.1) * he
  · rw [mul_one_div, div_eq_iff hden]
    linear_combination (s.2 - e.2) * he

def vA (c s l w tx tz : ℚ) : Pt :=
  (tx + c * (-(l/2)) + s * (w/2), tz - s * (-(l/2)) + c * (w/2))

def vB (c s l w tx tz : ℚ) : Pt :=
  (tx + c * (-(l/2)) + s * (-(w/2)), tz - s * (-(l/2)) + c * (-(w/2)))

def vC (c s l w tx tz : ℚ) : Pt :=
  (tx + c * (l/2) + s * (-(w/2)), tz - s * (l/2) + c * (-(w/2)))

def vD (c s l w tx tz : ℚ) : Pt :=
  (tx + c * (l/2) + s * (w/2), tz - s * (l/2) + c * (w/2))

section Stage

variable (c s l w tx tz : ℚ)

lemma stage_DA (hcs : c^2 + s^2 = 1) (hl : 0 < l) (hw : 0 < w) :
    clipStage (vD c s l w tx tz) (vA c s l w tx tz)
      [vA c s l w tx tz, vB c s l w tx tz, vC c s l w tx tz, vD c s l w tx tz] =
    [vA c s l w tx tz, vB c s l w tx tz, vC c s l w tx tz, vD c s l w tx tz] := by
  have hlw : (0:ℚ) < l * w := mul_pos hl hw
  set A := vA c s l w tx tz with hA0
  set B := vB c s l w tx tz with hB0
  set C := vC c s l w tx tz with hC0
  set D := vD c s l w tx tz with hD0
  have hA : insideQ D A A = False := by
    refine eq_false (fun h => ?_)
    rw [insideQ, gt_iff_lt,
      show (A.1 - D.1) * (A.2 - D.2) = (A.2 - D.2) * (A.1 - D.1) from by ring] at h
    exact lt_irrefl _ h
  have hD : insideQ D A D = False := by
    refine eq_false (fun h => ?_)
    rw [insideQ, gt_iff_lt,
      show (A.1 - D.1) * (D.2 - D.2) = (A.2 - D.2) * (D.1 - D.1) from by ring] at h
    exact lt_irrefl _ h
  have hB : insideQ D A B = True := by
    refine eq_true ?_
    rw [insideQ]
    have key : (A.1 - D.1) * (B.2 - D.2) - (A.2 - D.2) * (B.1 - D.1) = l * w := by
      rw [hA0, hB0, hD0]
      unfold vA vB vD
      simp only
      linear_combination (l * w) * hcs
    linarith [key]
  have hC : insideQ D A C = True := by
    refine eq_true ?_
    rw [insideQ]
    have key : (A.1 - D.1) * (C.2 - D.2) - (A.2 - D.2) * (C.1 - D.1) = l * w := by
      rw [hA0, hC0, hD0]
      unfold vA vC vD
      simp only
      linear_combination (l * w) * hcs
    linarith [key]
  have hiAB : computeIntersection D A A B = A := by
    refine computeIntersection_of_s D A A B (by ring) ?_
    have key : (D.1 - A.1) * (A.2 - B.2) - (D.2 - A.2) * (A.1 - B.1) = l * w := by
      rw [hA0, hB0, hD0]
      unfold vA vB vD
      simp only
      linear_combination (l * w) * hcs
    rw [key]
    exact ne_of_gt hlw
  have hiCD : computeIntersection D A C D = D := by
    refine computeIntersection_of_e D A C D (by ring) ?_
    have key : (D.1 - A.1) * (C.2 - D.2) - (D.2 - A.2) * (C.1 - D.1) = -(l * w) := by
      rw [hA0, hC0, hD0]
      unfold vA vC vD
      simp only
      linear_combination (-(l * w)) * hcs
    rw [key]
    exact ne_of_lt (by linarith)
  have hlast : [A, B, C, D].getLast? = some D := rfl
  unfold clipStage
  rw [hlast]
  simp only [clipPass, hA, hB, hC, hD, if_true, if_false, hiAB, hiCD]
  simp

lemma stage_AB (hcs : c^2 + s^2 = 1) (hl : 0 < l) (hw : 0 < w) :
    clipStage (vA c s l w tx tz) (vB c s l w tx tz)
      [vA c s l w tx tz, vB c s l w tx tz, vC c s l w tx tz, vD c s l w tx tz] =
    [vA c s l w tx tz, vB c s l w tx tz, vC c s l w tx tz, vD c s l w tx tz] := by
  have hlw : (0:ℚ) < l * w := mul_pos hl hw
  set A := vA c s l w tx tz with hA0
  set B := vB c s l w tx tz with hB0
  set C := vC c s l w tx tz with hC0
  set D := vD c s l w tx tz with hD0
  have hA : insideQ A B A = False := by
    refine eq_false (fun h => ?_)
    rw [insideQ, gt_iff_lt,
      show (B.1 - A.1) * (A.2 - A.2) = (B.2 - A.2) * (A.1 - A.1) from by ring] at h
    exact lt_irrefl _ h
  have hB : insideQ A B B = False := by
    refine eq_false (fun h => ?_)
    rw [insideQ, gt_iff_lt,
      show (B.1 - A.1) * (B.2 - A.2) = (B.2 - A.2) * (B.1 - A.1) from by ring] at h
    exact lt_irrefl _ h
  have hC : insideQ A B C = True := by
    refine eq_true ?_
    rw [insideQ]
    have key : (B.1 - A.1) * (C.2 - A.2) - (B.2 - A.2) * (C.1 - A.1) = l * w := by
      rw [hA0, hB0, hC0]
      unfold vA vB vC
      simp only
      linear_combination (l * w) * hcs
    linarith [key]
  have hD : insideQ A B D = True := by
    refine eq_true ?_
    rw [insideQ]
    have key : (B.1 - A.1) * (D.2 - A.2) - (B.2 - A.2) * (D.1 - A.1) = l * w := by
      rw [hA0, hB0, hD0]
      unfold vA vB vD
      simp only
      linear_combination (l * w) * hcs
    linarith [key]
  have hiDA : computeIntersection A B D A = A := by
    refine computeIntersection_of_e A B D A (by ring) ?_
    have key : (A.1 - B.1) * (D.2 - A.2) - (A.2 - B.2) * (D.1 - A.1) = -(l * w) := by
      rw [hA0, hB0, hD0]
      unfold vA vB vD
      simp only
      linear_combination (-(l * w)) * hcs
    rw [key]
    exact ne_of_lt (by linarith)
  have hiBC : computeIntersection A B B C = B := by
    refine computeIntersection_of_s A B B C (by ring) ?_
    have key : (A.1 - B.1) * (B.2 - C.2) - (A.2 - B.2) * (B.1 - C.1) = l * w := by
      rw [hA0, hB0, hC0]
      unfold vA vB vC
      simp only
      linear_combination (l * w) * hcs
    rw [key]
    exact ne_of_gt hlw
  have hlast : [A, B, C, D].getLast? = some D := rfl
  unfold clipStage
  rw [hlast]
  simp only [clipPass, hA, hB, hC, hD, if_true, if_false, hiDA, hiBC]
  simp

lemma stage_BC (hcs : c^2 + s^2 = 1) (hl : 0 < l) (hw : 0 < w) :
    clipStage (vB c s l w tx tz) (vC c s l w tx tz)
      [vA c s l w tx tz, vB c s l w tx tz, vC c s l w tx tz, vD c s l w tx tz] =
    [vA c s l w tx tz, vB c s l w tx tz, vC c s l w tx tz, vD c s l w tx tz] := by
  have hlw : (0:ℚ) < l * w := mul_pos hl hw
  set A := vA c s l w tx tz with hA0
  set B := vB c s l w tx tz with hB0
  set C := vC c s l w tx tz with hC0
  set D := vD c s l w tx tz with hD0
  have hB : insideQ B C B = False := by
    refine eq_false (fun h => ?_)
    rw [insideQ, gt_iff_lt,
      show (C.1 - B.1) * (B.2 - B.2) = (C.2 - B.2) * (B.1 - B.1) from by ring] at h
    exact lt_irrefl _ h
  have hC : insideQ B C C = False := by
    refine eq_false (fun h => ?_)
    rw [insideQ, gt_iff_lt,
      show (C.1 - B.1) * (C.2 - B.2) = (C.2 - B.2) * (C.1 - B.1) from by ring] at h
    exact lt_irrefl _ h
  have hA : insideQ B C A = True := by
    refine eq_true ?_
    rw [insideQ]
    have key : (C.1 - B.1) * (A.2 - B.2) - (C.2 - B.2) * (A.1 - B.1) = l * w := by
      rw [hA0, hB0, hC0]
      unfold vA vB vC
      simp only
      linear_combination (l * w) * hcs
    linarith [key]
  have hD : insideQ B C D = True := by
    refine eq_true ?_
    rw [insideQ]
    have key : (C.1 - B.1) * (D.2 - B.2) - (C.2 - B.2) * (D.1 - B.1) = l * w := by
      rw [hB0, hC0, hD0]
      unfold vB vC vD
      simp only
      linear_combination (l * w) * hcs
    linarith [key]
  have hiAB : computeIntersection B C A B = B := by
    refine computeIntersection_of_e B C A B (by ring) ?_
    have key : (B.1 - C.1) * (A.2 - B.2) - (B.2 - C.2) * (A.1 - B.1) = -(l * w) := by
      rw [hA0, hB0, hC0]
      unfold vA vB vC
      simp only
      linear_combination (-(l * w)) * hcs
    rw [key]
    exact ne_of_lt (by linarith)
  have hiCD : computeIntersection B C C D = C := by
    refine computeIntersection_of_s B C C D (by ring) ?_
    have key : (B.1 - C.1) * (C.2 - D.2) - (B.2 - C.2) * (C.1 - D.1) = l * w := by
      rw [hB0, hC0, hD0]
      unfold vB vC vD
      simp only
      linear_combination (l * w) * hcs
    rw [key]
    exact ne_of_gt hlw
  have hlast : [A, B, C, D].getLast? = some D := rfl
  unfold clipStage
  rw [hlast]
  simp only [clipPass, hA, hB, hC, hD, if_true, if_false, hiAB, hiCD]
  simp

lemma stage_CD (hcs : c^2 + s^2 = 1) (hl : 0 < l) (hw : 0 < w) :
    clipStage (vC c s l w tx tz) (vD c s l w tx tz)
      [vA c s l w tx tz, vB c s l w tx tz, vC c s l w tx tz, vD c s l w tx tz] =
    [vD c s l w tx tz, vA c s l w tx tz, vB c s l w tx tz, vC c s l w tx tz] := by
  have hlw : (0:ℚ) < l * w := mul_pos hl hw
  set A := vA c s l w tx tz with hA0
  set B := vB c s l w tx tz with hB0
  set C := vC c s l w tx tz with hC0
  set D := vD c s l w tx tz with hD0
  have hC : insideQ C D C = False := by
    refine eq_false (fun h => ?_)
    rw [insideQ, gt_iff_lt,
      show (D.1 - C.1) * (C.2 - C.2) = (D.2 - C.2) * (C.1 - C.1) from by ring] at h
    exact lt_irrefl _ h
  have hD : insideQ C D D = False := by
    refine eq_false (fun h => ?_)
    rw [insideQ, gt_iff_lt,
      show (D.1 - C.1) * (D.2 - C.2) = (D.2 - C.2) * (D.1 - C.1) from by ring] at h
    exact lt_irrefl _ h
  have hA : insideQ C D A = True := by
    refine eq_true ?_
    rw [insideQ]
    have key : (D.1 - C.1) * (A.2 - C.2) - (D.2 - C.2) * (A.1 - C.1) = l * w := by
      rw [hA0, hC0, hD0]
      unfold vA vC vD
      simp only
      linear_combination (l * w) * hcs
    linarith [key]
  have hB : insideQ C D B = True := by
    refine eq_true ?_
    rw [insideQ]
    have key : (D.1 - C.1) * (B.2 - C.2) - (D.2 - C.2) * (B.1 - C.1) = l * w := by
      rw [hB0, hC0, hD0]
      unfold vB vC vD
      simp only
      linear_combination (l * w) * hcs
    linarith [key]
  have hiDA : computeIntersection C D D A = D := by
    refine computeIntersection_of_s C D D A (by ring) ?_
    have key : (C.1 - D.1) * (D.2 - A.2) - (C.2 - D.2) * (D.1 - A.1) = l * w := by
      rw [hA0, hC0, hD0]
      unfold vA vC vD
      simp only
      linear_combination (l * w) * hcs
    rw [key]
    exact ne_of_gt hlw
  have hiBC : computeIntersection C D B C = C := by
    refine computeIntersection_of_e C D B C (by ring) ?_
    have key : (C.1 - D.1) * (B.2 - C.2) - (C.2 - D.2) * (B.1 - C.1) = -(l * w) := by
      rw [hB0, hC0, hD0]
      unfold vB vC vD
      simp only
      linear_combination (-(l * w)) * hcs
    rw [key]
    exact ne_of_lt (by linarith)
  have hlast : [A, B, C, D].getLast? = some D := rfl
  unfold clipStage
  rw [hlast]
  simp only [clipPass, hA, hB, hC, hD, if_true, if_false, hiDA, hiBC]
  simp

end Stage

lemma selfClip (c s l w tx tz : ℚ) (hcs : c^2 + s^2 = 1) (hl : 0 < l) (hw : 0 < w) :
    polygon_clip
      [vA c s l w tx tz, vB c s l w tx tz, vC c s l w tx tz, vD c s l w tx tz]
      [vA c s l w tx tz, vB c s l w tx tz, vC c s l w tx tz, vD c s l w tx tz] =
    some [vD c s l w tx tz, vA c s l w tx tz, vB c s l w tx tz, vC c s l w tx tz] := by
  have h1 := stage_DA c s l w tx tz hcs hl hw
  have h2 := stage_AB c s l w tx tz hcs hl hw
  have h3 := stage_BC c s l w tx tz hcs hl hw
  have h4 := stage_CD c s l w tx tz hcs hl hw
  unfold polygon_clip
  rw [show [vA c s l w tx tz, vB c s l w tx tz, vC c s l w tx tz,
      vD c s l w tx tz].getLast? = some (vD c s l w tx tz) from rfl]
  simp only [clipLoop, h1, h2, h3, h4]
  simp

lemma canonAngle_spec (x y : ℚ) (hu : ¬(x = 0 ∧ y = 0)) :
    (0 < (canonAngle (x, y)).1 ∧ 0 ≤ (canonAngle (x, y)).2) ∧
    (canonAngle (x, y) = (x, y) ∨ canonAngle (x, y) = (y, -x) ∨
      canonAngle (x, y) = (-x, -y) ∨ canonAngle (x, y) = (-y, x)) := by
  unfold canonAngle
  split_ifs with h1 h2 h3 h4
  · exact ⟨⟨h1.1, h1.2⟩, Or.inl rfl⟩
  · exact ⟨⟨h2.1, h2.2⟩, Or.inr (Or.inl rfl)⟩
  · exact ⟨⟨h3.1, h3.2⟩, Or.inr (Or.inr (Or.inl rfl))⟩
  · exact ⟨⟨h4.1, h4.2⟩, Or.inr (Or.inr (Or.inr rfl))⟩
  · exfalso
    simp only at h1 h2 h3 h4
    push_neg at h1 h2 h3 h4 hu
    rcases lt_trichotomy x 0 with hx | hx | hx
    · have hy : 0 < y := by linarith [h3 (by linarith)]
      linarith [h2 hy]
    · subst hx
      rcases lt_trichotomy y 0 with hy | hy | hy
      · linarith [h4 (by linarith)]
      · exact absurd hy (hu rfl)
      · linarith [h2 hy]
    · have hy : y < 0 := h1 hx
      linarith [h4 (by linarith)]

lemma orbit_Q1_unique (x y : ℚ) (d e : Pt)
    (hd : d = (x, y) ∨ d = (y, -x) ∨ d = (-x, -y) ∨ d = (-y, x))
    (he : e = (x, y) ∨ e = (y, -x) ∨ e = (-x, -y) ∨ e = (-y, x))
    (hd1 : 0 < d.1) (hd2 : 0 ≤ d.2) (he1 : 0 < e.1) (he2 : 0 ≤ e.2) : d = e := by
  rcases hd with rfl | rfl | rfl | rfl <;> rcases he with rfl | rfl | rfl | rfl <;>
    simp only at hd1 hd2 he1 he2 <;> first | rfl | (exfalso; linarith)

lemma canon_eq_of_orbit (x y : ℚ) (hu : ¬(x = 0 ∧ y = 0)) (d : Pt)
    (hd : d = (x, y) ∨ d = (y, -x) ∨ d = (-x, -y) ∨ d = (-y, x))
    (hd1 : 0 < d.1) (hd2 : 0 ≤ d.2) : canonAngle (x, y) = d := by
  obtain ⟨⟨hc1, hc2⟩, horb⟩ := canonAngle_spec x y hu
  exact orbit_Q1_unique x y _ d horb hd hc1 hc2 hd1 hd2

lemma canon_smul (x y k : ℚ) (hk : 0 < k) (hu : ¬(x = 0 ∧ y = 0)) :
    canonAngle (k * x, k * y) =
      (k * (canonAngle (x, y)).1, k * (canonAngle (x, y)).2) := by
  obtain ⟨⟨hc1, hc2⟩, horb⟩ := canonAngle_spec x y hu
  refine canon_eq_of_orbit (k * x) (k * y) ?_ _ ?_ ?_ ?_
  · rintro ⟨hx, hy⟩
    exact hu ⟨by nlinarith [hk], by nlinarith [hk]⟩
  · rcases horb with h | h | h | h <;> rw [h]
    · exact Or.inl rfl
    · exact Or.inr (Or.inl (by refine Prod.ext ?_ ?_ <;> simp [mul_comm]))
    · exact Or.inr (Or.inr (Or.inl (by refine Prod.ext ?_ ?_ <;> simp [mul_comm])))
    · exact Or.inr (Or.inr (Or.inr (by refine Prod.ext ?_ ?_ <;> simp [mul_comm])))
  · exact mul_pos hk hc1
  · exact mul_nonneg (le_of_lt hk) hc2

lemma canon_neg (x y : ℚ) (hu : ¬(x = 0 ∧ y = 0)) :
    canonAngle (-x, -y) = canonAngle (x, y) := by
  obtain ⟨⟨hc1, hc2⟩, horb⟩ := canonAngle_spec x y hu
  refine canon_eq_of_orbit (-x) (-y) ?_ _ ?_ hc1 hc2
  · rintro ⟨hx, hy⟩
    exact hu ⟨by linarith, by linarith⟩
  · rcases horb with h | h | h | h <;> rw [h]
    · exact Or.inr (Or.inr (Or.inl (by refine Prod.ext ?_ ?_ <;> simp)))
    · exact Or.inr (Or.inr (Or.inr (by refine Prod.ext ?_ ?_ <;> simp)))
    · exact Or.inl (by refine Prod.ext ?_ ?_ <;> simp)
    · exact Or.inr (Or.inl (by refine Prod.ext ?_ ?_ <;> simp))

lemma canon_perp (x y : ℚ) (hu : ¬(x = 0 ∧ y = 0)) :
    canonAngle (-y, x) = canonAngle (x, y) := by
  obtain ⟨⟨hc1, hc2⟩, horb⟩ := canonAngle_spec x y hu
  refine canon_eq_of_orbit (-y) x ?_ _ ?_ hc1 hc2
  · rintro ⟨hy, hx⟩
    exact hu ⟨hx, by linarith⟩
  · rcases horb with h | h | h | h <;> rw [h]
    · exact Or.inr (Or.inl (by refine Prod.ext ?_ ?_ <;> simp))
    · exact Or.inr (Or.inr (Or.inl (by refine Prod.ext ?_ ?_ <;> simp)))
    · exact Or.inr (Or.inr (Or.inr (by refine Prod.ext ?_ ?_ <;> simp)))
    · exact Or.inl (by refine Prod.ext ?_ ?_ <;> simp)

lemma foldl_max_smul (k : ℚ) (hk : 0 ≤ k) :
    ∀ (xs : List ℚ) (x : ℚ),
      (xs.map (fun a => k * a)).foldl max (k * x) = k * xs.foldl max x
  | [], x => by simp
  | y :: ys, x => by
    simp only [List.map_cons, List.foldl_cons]
    rw [← mul_max_of_nonneg _ _ hk]
    exact foldl_max_smul k hk ys (max x y)

lemma foldl_min_smul (k : ℚ) (hk : 0 ≤ k) :
    ∀ (xs : List ℚ) (x : ℚ),
      (xs.map (fun a => k * a)).foldl min (k * x) = k * xs.foldl min x
  | [], x => by simp
  | y :: ys, x => by
    simp only [List.map_cons, List.foldl_cons]
    rw [← mul_min_of_nonneg _ _ hk]
    exact foldl_min_smul k hk ys (min x y)

lemma spanList_smul (k : ℚ) (hk : 0 ≤ k) (l : List ℚ) :
    spanList (l.map (fun a => k * a)) = k * spanList l := by
  cases l with
  | nil => simp [spanList]
  | cons x xs =>
    simp only [List.map_cons, spanList]
    rw [foldl_max_smul k hk, foldl_min_smul k hk]
    ring

lemma foldl_max_neg : ∀ (xs : List ℚ) (x : ℚ),
    (xs.map (fun a => -a)).foldl max (-x) = -(xs.foldl min x)
  | [], x => by simp
  | y :: ys, x => by
    simp only [List.map_cons, List.foldl_cons]
    rw [show max (-x) (-y) = -(min x y) from max_neg_neg x y]
    exact foldl_max_neg ys (min x y)

lemma foldl_min_neg : ∀ (xs : List ℚ) (x : ℚ),
    (xs.map (fun a => -a)).foldl min (-x) = -(xs.foldl max x)
  | [], x => by simp
  | y :: ys, x => by
    simp only [List.map_cons, List.foldl_cons]
    rw [show min (-x) (-y) = -(max x y) from min_neg_neg x y]
    exact foldl_min_neg ys (max x y)

lemma spanList_neg (l : List ℚ) :
    spanList (l.map (fun a => -a)) = spanList l := by
  cases l with
  | nil => simp [spanList]
  | cons x xs =>
    simp only [List.map_cons, spanList]
    rw [foldl_max_neg, foldl_min_neg]
    ring

lemma rotArea_smul (k : ℚ) (hk : 0 < k) (d : Pt) (pts : List Pt) :
    rotArea (k * d.1, k * d.2) pts = rotArea d pts := by
  unfold rotArea
  simp only
  have hx : (pts.map (fun p => k * d.1 * p.1 + k * d.2 * p.2)) =
      (pts.map (fun p => d.1 * p.1 + d.2 * p.2)).map (fun a => k * a) := by
    rw [List.map_map]
    exact List.map_congr_left (fun p _ => by simp [Function.comp]; ring)
  have hy : (pts.map (fun p => -(k * d.2) * p.1 + k * d.1 * p.2)) =
      (pts.map (fun p => -d.2 * p.1 + d.1 * p.2)).map (fun a => k * a) := by
    rw [List.map_map]
    exact List.map_congr_left (fun p _ => by simp [Function.comp]; ring)
  rw [hx, hy, spanList_smul k (le_of_lt hk), spanList_smul k (le_of_lt hk)]
  rw [show (k * d.1)^2 + (k * d.2)^2 = k^2 * (d.1^2 + d.2^2) from by ring,
    show k * spanList (pts.map (fun p => d.1 * p.1 + d.2 * p.2)) *
        (k * spanList (pts.map (fun p => -d.2 * p.1 + d.1 * p.2))) =
      k^2 * (spanList (pts.map (fun p => d.1 * p.1 + d.2 * p.2)) *
        spanList (pts.map (fun p => -d.2 * p.1 + d.1 * p.2))) from by ring]
  exact mul_div_mul_left _ _ (pow_ne_zero 2 (ne_of_gt hk))

lemma rotArea_neg (d : Pt) (pts : List Pt) :
    rotArea (-d.1, -d.2) pts = rotArea d pts := by
  unfold rotArea
  simp only
  have hx : (pts.map (fun p => -d.1 * p.1 + -d.2 * p.2)) =
      (pts.map (fun p => d.1 * p.1 + d.2 * p.2)).map (fun a => -a) := by
    rw [List.map_map]
    exact List.map_congr_left (fun p _ => by simp [Function.comp]; ring)
  have hy : (pts.map (fun p => - -d.2 * p.1 + -d.1 * p.2)) =
      (pts.map (fun p => -d.2 * p.1 + d.1 * p.2)).map (fun a => -a) := by
    rw [List.map_map]
    exact List.map_congr_left (fun p _ => by simp [Function.comp]; ring)
  rw [hx, hy, spanList_neg, spanList_neg,
    show (-d.1)^2 + (-d.2)^2 = d.1^2 + d.2^2 from by ring]

lemma rotArea_perp (d : Pt) (pts : List Pt) :
    rotArea (-d.2, d.1) pts = rotArea d pts := by
  unfold rotArea
  simp only
  have hx : (pts.map (fun p => -d.2 * p.1 + d.1 * p.2)) =
      (pts.map (fun p => -d.2 * p.1 + d.1 * p.2)) := rfl
  have hy : (pts.map (fun p => -d.1 * p.1 + -d.2 * p.2)) =
      (pts.map (fun p => d.1 * p.1 + d.2 * p.2)).map (fun a => -a) := by
    rw [List.map_map]
    exact List.map_congr_left (fun p _ => by simp [Function.comp]; ring)
  rw [hy, spanList_neg,
    show (-d.2)^2 + d.1^2 = d.1^2 + d.2^2 from by ring, mul_comm]

lemma spanList_patterns (p q : ℚ) (h : q ≤ p) :
    spanList [p, q, q, p] = p - q ∧ spanList [q, q, p, p] = p - q ∧
    spanList [q, p, p, q] = p - q ∧ spanList [p, p, q, q] = p - q := by
  refine ⟨?_, ?_, ?_, ?_⟩ <;>
    · unfold spanList
      simp only [List.foldl_cons, List.foldl_nil, max_self, min_self,
        max_eq_left h, max_eq_right h, min_eq_left h, min_eq_right h]

lemma rotArea_u_all (c s l w tx tz : ℚ) (hcs : c^2 + s^2 = 1)
    (hl : 0 < l) (hw : 0 < w) :
    rotArea (s, c)
      [vA c s l w tx tz, vB c s l w tx tz, vC c s l w tx tz, vD c s l w tx tz] = l * w ∧
    rotArea (s, c)
      [vB c s l w tx tz, vC c s l w tx tz, vD c s l w tx tz, vA c s l w tx tz] = l * w ∧
    rotArea (s, c)
      [vC c s l w tx tz, vD c s l w tx tz, vA c s l w tx tz, vB c s l w tx tz] = l * w ∧
    rotArea (s, c)
      [vD c s l w tx tz, vA c s l w tx tz, vB c s l w tx tz, vC c s l w tx tz] = l * w := by
  have hcs' : s^2 + c^2 = 1 := by linarith [hcs]
  have eA : s * (vA c s l w tx tz).1 + c * (vA c s l w tx tz).2 = (s*tx + c*tz) + w/2 := by
    unfold vA; simp only; linear_combination (w/2) * hcs
  have eB : s * (vB c s l w tx tz).1 + c * (vB c s l w tx tz).2 = (s*tx + c*tz) - w/2 := by
    unfold vB; simp only; linear_combination (-(w/2)) * hcs
  have eC : s * (vC c s l w tx tz).1 + c * (vC c s l w tx tz).2 = (s*tx + c*tz) - w/2 := by
    unfold vC; simp only; linear_combination (-(w/2)) * hcs
  have eD : s * (vD c s l w tx tz).1 + c * (vD c s l w tx tz).2 = (s*tx + c*tz) + w/2 := by
    unfold vD; simp only; linear_combination (w/2) * hcs
  have gA : -c * (vA c s l w tx tz).1 + s * (vA c s l w tx tz).2 = (-(c*tx) + s*tz) + l/2 := by
    unfold vA; simp only; linear_combination (l/2) * hcs
  have gB : -c * (vB c s l w tx tz).1 + s * (vB c s l w tx tz).2 = (-(c*tx) + s*tz) + l/2 := by
    unfold vB; simp only; linear_combination (l/2) * hcs
  have gC : -c * (vC c s l w tx tz).1 + s * (vC c s l w tx tz).2 = (-(c*tx) + s*tz) - l/2 := by
    unfold vC; simp only; linear_combination (-(l/2)) * hcs
  have gD : -c * (vD c s l w tx tz).1 + s * (vD c s l w tx tz).2 = (-(c*tx) + s*tz) - l/2 := by
    unfold vD; simp only; linear_combination (-(l/2)) * hcs
  have hpq : (s*tx + c*tz) - w/2 ≤ (s*tx + c*tz) + w/2 := by linarith
  have hpq2 : (-(c*tx) + s*tz) - l/2 ≤ (-(c*tx) + s*tz) + l/2 := by linarith
  obtain ⟨P1, P2, P3, P4⟩ := spanList_patterns _ _ hpq
  obtain ⟨Q1, Q2, Q3, Q4⟩ := spanList_patterns _ _ hpq2
  refine ⟨?_, ?_, ?_, ?_⟩ <;>
      (unfold rotArea
       simp only [List.map_cons, List.map_nil, eA, eB, eC, eD, gA, gB, gC, gD])
  · rw [P1, Q4, hcs', div_one]; ring
  · rw [P2, Q1, hcs', div_one]; ring
  · rw [P3, Q2, hcs', div_one]; ring
  · rw [P4, Q3, hcs', div_one]; ring

lemma rotArea_canon (x y : ℚ) (hu : ¬(x = 0 ∧ y = 0)) (pts : List Pt) :
    rotArea (canonAngle (x, y)) pts = rotArea (x, y) pts := by
  obtain ⟨_, horb⟩ := canonAngle_spec x y hu
  rcases horb with h | h | h | h <;> rw [h]
  · have := (rotArea_perp (-x, -y) pts).trans (rotArea_neg (x, y) pts)
    simpa using this
  · exact rotArea_neg (x, y) pts
  · exact rotArea_perp (x, y) pts

lemma uniqueAngles_three (d1 d2 d3 : Pt) (h21 : slopeEq d2 d1) (h31 : slopeEq d3 d1) :
    uniqueAngles [d1, d2, d3] = [d1] := by
  unfold uniqueAngles
  simp only [List.foldl_cons, List.foldl_nil]
  rw [show insertAngle d1 [] = [d1] from rfl]
  rw [show insertAngle d2 [d1] = [d1] from by unfold insertAngle; rw [if_pos h21]]
  rw [show insertAngle d3 [d1] = [d1] from by unfold insertAngle; rw [if_pos h31]]

section EdgeCanon

variable (c s l w tx tz : ℚ)

lemma edge_canon_AB (hcs : c^2 + s^2 = 1) (hw : 0 < w) :
    canonAngle ((vB c s l w tx tz).1 - (vA c s l w tx tz).1,
        (vB c s l w tx tz).2 - (vA c s l w tx tz).2) =
      (w * (canonAngle (s, c)).1, w * (canonAngle (s, c)).2) := by
  have hsc : ¬(s = 0 ∧ c = 0) := by rintro ⟨rfl, rfl⟩; norm_num at hcs
  have hpair : ((vB c s l w tx tz).1 - (vA c s l w tx tz).1,
      (vB c s l w tx tz).2 - (vA c s l w tx tz).2) = ((w * -s, w * -c) : Pt) := by
    unfold vA vB
    refine Prod.ext ?_ ?_ <;> simp only <;> ring
  rw [hpair, canon_smul (-s) (-c) w hw
    (by rintro ⟨h1, h2⟩; exact hsc ⟨by linarith, by linarith⟩), canon_neg s c hsc]

lemma edge_canon_BC (hcs : c^2 + s^2 = 1) (hl : 0 < l) :
    canonAngle ((vC c s l w tx tz).1 - (vB c s l w tx tz).1,
        (vC c s l w tx tz).2 - (vB c s l w tx tz).2) =
      (l * (canonAngle (s, c)).1, l * (canonAngle (s, c)).2) := by
  have hsc : ¬(s = 0 ∧ c = 0) := by rintro ⟨rfl, rfl⟩; norm_num at hcs
  have hcs2 : ¬(c = 0 ∧ -s = 0) := by rintro ⟨h1, h2⟩; exact hsc ⟨by linarith, h1⟩
  have hpair : ((vC c s l w tx tz).1 - (vB c s l w tx tz).1,
      (vC c s l w tx tz).2 - (vB c s l w tx tz).2) = ((l * c, l * -s) : Pt) := by
    unfold vB vC
    refine Prod.ext ?_ ?_ <;> simp only <;> ring
  rw [hpair, canon_smul c (-s) l hl hcs2]
  have hneg := canon_neg (-c) s (by rintro ⟨h1, h2⟩; exact hsc ⟨h2, by linarith⟩)
  simp only [neg_neg] at hneg
  rw [hneg, canon_perp s c hsc]

lemma edge_canon_CD (hcs : c^2 + s^2 = 1) (hw : 0 < w) :
    canonAngle ((vD c s l w tx tz).1 - (vC c s l w tx tz).1,
        (vD c s l w tx tz).2 - (vC c s l w tx tz).2) =
      (w * (canonAngle (s, c)).1, w * (canonAngle (s, c)).2) := by
  have hsc : ¬(s = 0 ∧ c = 0) := by rintro ⟨rfl, rfl⟩; norm_num at hcs
  have hpair : ((vD c s l w tx tz).1 - (vC c s l w tx tz).1,
      (vD c s l w tx tz).2 - (vC c s l w tx tz).2) = ((w * s, w * c) : Pt) := by
    unfold vC vD
    refine Prod.ext ?_ ?_ <;> simp only <;> ring
  rw [hpair, canon_smul s c w hw hsc]

lemma edge_canon_DA (hcs : c^2 + s^2 = 1) (hl : 0 < l) :
    canonAngle ((vA c s l w tx tz).1 - (vD c s l w tx tz).1,
        (vA c s l w tx tz).2 - (vD c s l w tx tz).2) =
      (l * (canonAngle (s, c)).1, l * (canonAngle (s, c)).2) := by
  have hsc : ¬(s = 0 ∧ c = 0) := by rintro ⟨rfl, rfl⟩; norm_num at hcs
  have hpair : ((vA c s l w tx tz).1 - (vD c s l w tx tz).1,
      (vA c s l w tx tz).2 - (vD c s l w tx tz).2) = ((l * -c, l * s) : Pt) := by
    unfold vA vD
    refine Prod.ext ?_ ?_ <;> simp only <;> ring
  rw [hpair, canon_smul (-c) s l hl
    (by rintro ⟨h1, h2⟩; exact hsc ⟨h2, by linarith⟩), canon_perp s c hsc]

end EdgeCanon

lemma mbr_rect_all (c s l w tx tz : ℚ) (hcs : c^2 + s^2 = 1)
    (hl : 0 < l) (hw : 0 < w) (hmax : l * w < sysMaxsize) :
    (min_bounding_rect
      [vA c s l w tx tz, vB c s l w tx tz, vC c s l w tx tz, vD c s l w tx tz]).2 = l * w ∧
    (min_bounding_rect
      [vB c s l w tx tz, vC c s l w tx tz, vD c s l w tx tz, vA c s l w tx tz]).2 = l * w ∧
    (min_bounding_rect
      [vC c s l w tx tz, vD c s l w tx tz, vA c s l w tx tz, vB c s l w tx tz]).2 = l * w ∧
    (min_bounding_rect
      [vD c s l w tx tz, vA c s l w tx tz, vB c s l w tx tz, vC c s l w tx tz]).2 = l * w := by
  have hsc : ¬(s = 0 ∧ c = 0) := by rintro ⟨rfl, rfl⟩; norm_num at hcs
  have hAB := edge_canon_AB c s l w tx tz hcs hw
  have hBC := edge_canon_BC c s l w tx tz hcs hl
  have hCD := edge_canon_CD c s l w tx tz hcs hw
  have hDA := edge_canon_DA c s l w tx tz hcs hl
  have hslope : ∀ k1 k2 : ℚ,
      slopeEq (k1 * (canonAngle (s, c)).1, k1 * (canonAngle (s, c)).2)
        (k2 * (canonAngle (s, c)).1, k2 * (canonAngle (s, c)).2) := by
    intro k1 k2
    unfold slopeEq
    simp only
    ring
  have hrot : ∀ (k : ℚ), 0 < k → ∀ pts : List Pt,
      rotArea (k * (canonAngle (s, c)).1, k * (canonAngle (s, c)).2) pts =
        rotArea (s, c) pts := by
    intro k hk pts
    exact (rotArea_smul k hk (canonAngle (s, c)) pts).trans (rotArea_canon s c hsc pts)
  obtain ⟨hu0, hu1, hu2, hu3⟩ := rotArea_u_all c s l w tx tz hcs hl hw
  refine ⟨?_, ?_, ?_, ?_⟩
  · rw [min_bounding_rect_eq_fold]
    rw [show edgesOf [vA c s l w tx tz, vB c s l w tx tz, vC c s l w tx tz,
        vD c s l w tx tz] =
      [((vB c s l w tx tz).1 - (vA c s l w tx tz).1,
        (vB c s l w tx tz).2 - (vA c s l w tx tz).2),
       ((vC c s l w tx tz).1 - (vB c s l w tx tz).1,
        (vC c s l w tx tz).2 - (vB c s l w tx tz).2),
       ((vD c s l w tx tz).1 - (vC c s l w tx tz).1,
        (vD c s l w tx tz).2 - (vC c s l w tx tz).2)] from by simp [edgesOf]]
    simp only [List.map_cons, List.map_nil, hAB, hBC, hCD]
    rw [uniqueAngles_three _ _ _ (hslope l w) (hslope w w)]
    simp only [List.foldl_cons, List.foldl_nil, minFoldStep]
    rw [hrot w hw _, hu0, if_pos (show l * w < (((1 : ℚ), (0 : ℚ)), sysMaxsize).2 from hmax)]
  · rw [min_bounding_rect_eq_fold]
    rw [show edgesOf [vB c s l w tx tz, vC c s l w tx tz, vD c s l w tx tz,
        vA c s l w tx tz] =
      [((vC c s l w tx tz).1 - (vB c s l w tx tz).1,
        (vC c s l w tx tz).2 - (vB c s l w tx tz).2),
       ((vD c s l w tx tz).1 - (vC c s l w tx tz).1,
        (vD c s l w tx tz).2 - (vC c s l w tx tz).2),
       ((vA c s l w tx tz).1 - (vD c s l w tx tz).1,
        (vA c s l w tx tz).2 - (vD c s l w tx tz).2)] from by simp [edgesOf]]
    simp only [List.map_cons, List.map_nil, hBC, hCD, hDA]
    rw [uniqueAngles_three _ _ _ (hslope w l) (hslope l l)]
    simp only [List.foldl_cons, List.foldl_nil, minFoldStep]
    rw [hrot l hl _, hu1, if_pos (show l * w < (((1 : ℚ), (0 : ℚ)), sysMaxsize).2 from hmax)]
  · rw [min_bounding_rect_eq_fold]
    rw [show edgesOf [vC c s l w tx tz, vD c s l w tx tz, vA c s l w tx tz,
        vB c s l w tx tz] =
      [((vD c s l w tx tz).1 - (vC c s l w tx tz).1,
        (vD c s l w tx tz).2 - (vC c s l w tx tz).2),
       ((vA c s l w tx tz).1 - (vD c s l w tx tz).1,
        (vA c s l w tx tz).2 - (vD c s l w tx tz).2),
       ((vB c s l w tx tz).1 - (vA c s l w tx tz).1,
        (vB c s l w tx tz).2 - (vA c s l w tx tz).2)] from by simp [edgesOf]]
    simp only [List.map_cons, List.map_nil, hCD, hDA, hAB]
    rw [uniqueAngles_three _ _ _ (hslope l w) (hslope w w)]
    simp only [List.foldl_cons, List.foldl_nil, minFoldStep]
    rw [hrot w hw _, hu2, if_pos (show l * w < (((1 : ℚ), (0 : ℚ)), sysMaxsize).2 from hmax)]
  · rw [min_bounding_rect_eq_fold]
    rw [show edgesOf [vD c s l w tx tz, vA c s l w tx tz, vB c s l w tx tz,
        vC c s l w tx tz] =
      [((vA c s l w tx tz).1 - (vD c s l w tx tz).1,
        (vA c s l w tx tz).2 - (vD c s l w tx tz).2),
       ((vB c s l w tx tz).1 - (vA c s l w tx tz).1,
        (vB c s l w tx tz).2 - (vA c s l w tx tz).2),
       ((vC c s l w tx tz).1 - (vB c s l w tx tz).1,
        (vC c s l w tx tz).2 - (vB c s l w tx tz).2)] from by simp [edgesOf]]
    simp only [List.map_cons, List.map_nil, hDA, hAB, hBC]
    rw [uniqueAngles_three _ _ _ (hslope w l) (hslope l l)]
    simp only [List.foldl_cons, List.foldl_nil, minFoldStep]
    rw [hrot l hl _, hu3, if_pos (show l * w < (((1 : ℚ), (0 : ℚ)), sysMaxsize).2 from hmax)]

/-- The footprint of `__compute_box_3d` written with the four named
corners. -/
def rect0 (b : Det) : List Pt :=
  [vA b.ryc b.rys b.l b.w b.cx b.cz, vB b.ryc b.rys b.l b.w b.cx b.cz,
   vC b.ryc b.rys b.l b.w b.cx b.cz, vD b.ryc b.rys b.l b.w b.cx b.cz]

lemma rectOf_eval (b : Det) : rectOf (computeBox3d b) = rect0 b := by
  simp only [rectOf, rect0, computeBox3d, localCorners]
  norm_num [vA, vB, vC, vD]
  refine ⟨⟨by ring, by ring⟩, ⟨by ring, by ring⟩, by ring, by ring⟩

lemma hullVolume_rect (c s l w tx tz : ℚ) (hcs : c^2 + s^2 = 1)
    (hl : 0 < l) (hw : 0 < w) :
    hullVolume [vD c s l w tx tz, vA c s l w tx tz, vB c s l w tx tz,
      vC c s l w tx tz] = l * w := by
  have hs : shoelace [vD c s l w tx tz, vA c s l w tx tz, vB c s l w tx tz,
      vC c s l w tx tz] = 2 * (l * w) := by
    unfold shoelace
    simp [List.rotate, vA, vB, vC, vD]
    linear_combination (2 * (l * w)) * hcs
  unfold hullVolume
  rw [hs, abs_of_pos (by positivity)]
  ring

lemma box3d_vol_eval (sq : ℚ → ℚ) (b : Det) (hcs : b.ryc^2 + b.rys^2 = 1)
    (hsqw : sq (b.w^2) = b.w) (hsql : sq (b.l^2) = b.l) (hsqh : sq (b.h^2) = b.h) :
    box3d_vol sq (computeBox3d b) = b.w * b.l * b.h := by
  have h1 : ((computeBox3d b 0).1 - (computeBox3d b 1).1)^2 +
      ((computeBox3d b 0).2.1 - (computeBox3d b 1).2.1)^2 +
      ((computeBox3d b 0).2.2 - (computeBox3d b 1).2.2)^2 = b.w^2 := by
    simp [computeBox3d, localCorners]
    linear_combination (b.w^2) * hcs
  have h2 : ((computeBox3d b 1).1 - (computeBox3d b 2).1)^2 +
      ((computeBox3d b 1).2.1 - (computeBox3d b 2).2.1)^2 +
      ((computeBox3d b 1).2.2 - (computeBox3d b 2).2.2)^2 = b.l^2 := by
    simp [computeBox3d, localCorners]
    linear_combination (b.l^2) * hcs
  have h3 : ((computeBox3d b 0).1 - (computeBox3d b 4).1)^2 +
      ((computeBox3d b 0).2.1 - (computeBox3d b 4).2.1)^2 +
      ((computeBox3d b 0).2.2 - (computeBox3d b 4).2.2)^2 = b.h^2 := by
    simp [computeBox3d, localCorners]
  unfold box3d_vol
  rw [h1, h2, h3, hsqw, hsql, hsqh]

lemma corner_y_eval (b : Det) :
    (computeBox3d b 0).2.1 = b.cy ∧ (computeBox3d b 4).2.1 = b.cy - b.h := by
  refine ⟨?_, ?_⟩
  · simp [computeBox3d, localCorners]
  · simp [computeBox3d, localCorners]
    ring

lemma box3d_iou_identical (sq : ℚ → ℚ) (b : Det) (hcs : b.ryc^2 + b.rys^2 = 1)
    (hh : 0 < b.h) (hw : 0 < b.w) (hl : 0 < b.l)
    (hsqw : sq (b.w^2) = b.w) (hsql : sq (b.l^2) = b.l) (hsqh : sq (b.h^2) = b.h) :
    box3d_iou sq (computeBox3d b) (computeBox3d b) =
      (b.l * b.w * b.h, b.w * b.l * b.h, b.w * b.l * b.h) := by
  obtain ⟨hy0, hy4⟩ := corner_y_eval b
  have hclip : polygon_clip (rect0 b) (rect0 b) =
      some [vD b.ryc b.rys b.l b.w b.cx b.cz, vA b.ryc b.rys b.l b.w b.cx b.cz,
        vB b.ryc b.rys b.l b.w b.cx b.cz, vC b.ryc b.rys b.l b.w b.cx b.cz] :=
    selfClip b.ryc b.rys b.l b.w b.cx b.cz hcs hl hw
  have hinter : (convex_hull_intersection (rect0 b) (rect0 b)).2 = b.l * b.w := by
    unfold convex_hull_intersection
    rw [hclip]
    exact hullVolume_rect b.ryc b.rys b.l b.w b.cx b.cz hcs hl hw
  simp only [box3d_iou]
  rw [rectOf_eval, hinter, hy0, hy4, min_self, max_self,
    show b.cy - (b.cy - b.h) = b.h from by ring, max_eq_right hh.le,
    box3d_vol_eval sq b hcs hsqw hsql hsqh]

lemma oobb_identical (hull : List Pt → List Pt) (b : Det)
    (hcs : b.ryc^2 + b.rys^2 = 1) (_hh : 0 < b.h) (hw : 0 < b.w) (hl : 0 < b.l)
    (hmax : b.l * b.w < sysMaxsize)
    (hhull : hull (rect0 b ++ rect0 b) = rect0 b ∨
      hull (rect0 b ++ rect0 b) =
        [vB b.ryc b.rys b.l b.w b.cx b.cz, vC b.ryc b.rys b.l b.w b.cx b.cz,
         vD b.ryc b.rys b.l b.w b.cx b.cz, vA b.ryc b.rys b.l b.w b.cx b.cz] ∨
      hull (rect0 b ++ rect0 b) =
        [vC b.ryc b.rys b.l b.w b.cx b.cz, vD b.ryc b.rys b.l b.w b.cx b.cz,
         vA b.ryc b.rys b.l b.w b.cx b.cz, vB b.ryc b.rys b.l b.w b.cx b.cz] ∨
      hull (rect0 b ++ rect0 b) =
        [vD b.ryc b.rys b.l b.w b.cx b.cz, vA b.ryc b.rys b.l b.w b.cx b.cz,
         vB b.ryc b.rys b.l b.w b.cx b.cz, vC b.ryc b.rys b.l b.w b.cx b.cz]) :
    bbox3d_min_oobb hull (computeBox3d b) (computeBox3d b) = b.l * b.w * b.h := by
  obtain ⟨hy0, hy4⟩ := corner_y_eval b
  obtain ⟨m0, m1, m2, m3⟩ :=
    mbr_rect_all b.ryc b.rys b.l b.w b.cx b.cz hcs hl hw hmax
  have harea : (min_bounding_rect (hull (rect0 b ++ rect0 b))).2 = b.l * b.w := by
    rcases hhull with h | h | h | h <;> rw [h]
    · exact m0
    · exact m1
    · exact m2
    · exact m3
  simp only [bbox3d_min_oobb]
  rw [rectOf_eval, harea, hy0, hy4, max_self, min_self,
    show b.cy - (b.cy - b.h) = b.h from by ring]

/-- **C4 (amended).** For every pair of 3D boxes with identical 7-field
parameters, positive height/width/length, *and footprint area `l·w` below
the `sys.maxsize` sentinel that initializes `__min_bounding_rect`*, the
similarity engine computes an intersection volume equal to each box's
volume (3D IoU = 1) and stores a normalized GIoU score equal to 1.  The
yaw enters through `(ryc, rys) = (cos ry, sin ry)` with
`ryc² + rys² = 1`; `sq` is `np.sqrt`, assumed correct at the three squared
edge lengths it is applied to; `hull` is the external convex-hull
collaborator, assumed to return the footprint's 4 distinct corners in
counter-clockwise order starting anywhere. -/
theorem identical_boxes_similarity_one (sq : ℚ → ℚ) (hull : List Pt → List Pt)
    (b : Det) (hcs : b.ryc^2 + b.rys^2 = 1) (hh : 0 < b.h) (hw : 0 < b.w)
    (hl : 0 < b.l) (hmax : b.l * b.w < sysMaxsize)
    (hsqw : sq (b.w^2) = b.w) (hsql : sq (b.l^2) = b.l) (hsqh : sq (b.h^2) = b.h)
    (hhull : hull (rect0 b ++ rect0 b) = rect0 b ∨
      hull (rect0 b ++ rect0 b) =
        [vB b.ryc b.rys b.l b.w b.cx b.cz, vC b.ryc b.rys b.l b.w b.cx b.cz,
         vD b.ryc b.rys b.l b.w b.cx b.cz, vA b.ryc b.rys b.l b.w b.cx b.cz] ∨
      hull (rect0 b ++ rect0 b) =
        [vC b.ryc b.rys b.l b.w b.cx b.cz, vD b.ryc b.rys b.l b.w b.cx b.cz,
         vA b.ryc b.rys b.l b.w b.cx b.cz, vB b.ryc b.rys b.l b.w b.cx b.cz] ∨
      hull (rect0 b ++ rect0 b) =
        [vD b.ryc b.rys b.l b.w b.cx b.cz, vA b.ryc b.rys b.l b.w b.cx b.cz,
         vB b.ryc b.rys b.l b.w b.cx b.cz, vC b.ryc b.rys b.l b.w b.cx b.cz]) :
    (box3d_iou sq (computeBox3d b) (computeBox3d b)).1 = b.l * b.w * b.h ∧
    box3d_vol sq (computeBox3d b) = b.w * b.l * b.h ∧
    giouPair sq hull b b false = 1 := by
  have hiou := box3d_iou_identical sq b hcs hh hw hl hsqw hsql hsqh
  have hvol := box3d_vol_eval sq b hcs hsqw hsql hsqh
  have hoobb := oobb_identical hull b hcs hh hw hl hmax hhull
  refine ⟨by rw [hiou], hvol, ?_⟩
  simp only [giouPair, Bool.false_eq_true, if_false]
  rw [hiou, hoobb]
  simp only
  rw [show b.w * b.l * b.h + b.w * b.l * b.h - b.l * b.w * b.h = b.l * b.w * b.h
    from by ring]
  have hne : b.l * b.w * b.h ≠ 0 := by positivity
  rw [div_self hne, sub_self, zero_div]
  norm_num

theorem identical_boxes_similarity_one_witness :
    giouPair sqrtFn hullTake4 dUnit dUnit false = 1 :=
  (identical_boxes_similarity_one sqrtFn hullTake4 dUnit
    (by norm_num [dUnit]) (by norm_num [dUnit]) (by norm_num [dUnit])
    (by norm_num [dUnit]) (by norm_num [dUnit, sysMaxsize])
    (by norm_num [dUnit, sqrtFn]) (by norm_num [dUnit, sqrtFn])
    (by norm_num [dUnit, sqrtFn]) (Or.inl rfl)).2.2
